import Mathlib

/-!
Shallow embedding of the EnvDrift core engine (parser, drift detection,
secret classification, template generation, diff computation) and proofs
of the specification's claims about it.

Strings are modelled by Lean `String` (a wrapper around `List Char`); the
JavaScript string operations used by the source (trim, split, indexOf,
includes, toLowerCase/toUpperCase, one-shot replace) are implemented
explicitly over the character list.  JavaScript regular expressions are
modelled by a derivative-based matcher over an explicit regex syntax; the
built-in provider patterns are hand-translated into that syntax, and
caller-supplied pattern strings are compiled by a small pattern compiler
that returns `none` on text it cannot parse (modelling the `new RegExp`
failure that the source catches and skips).
-/

namespace EnvDrift

/-- Characters stripped by string trimming (models `String.prototype.trim`
on the ASCII whitespace the inputs in scope contain). -/
def isWsChar (c : Char) : Bool :=
  c == ' ' || c == '\t' || c == '\n' || c == '\r' || c == '\x0b' || c == '\x0c'

/-- Trim whitespace from both ends of a character list. -/
def trimChars (cs : List Char) : List Char :=
  ((cs.dropWhile isWsChar).reverse.dropWhile isWsChar).reverse

/-- Trim whitespace from both ends of a string (models `line.trim()`). -/
def trimStr (s : String) : String :=
  String.mk (trimChars s.data)

/-- Split a character list at newline characters (models `content.split('\n')`;
empty segments are preserved). -/
def splitNl : List Char → List Char → List String
  | [], acc => [String.mk acc.reverse]
  | c :: rest, acc =>
    if c == '\n' then String.mk acc.reverse :: splitNl rest []
    else splitNl rest (c :: acc)

/-- Lowercase a string character by character (models `s.toLowerCase()` on
the ASCII data in scope). -/
def toLowerStr (s : String) : String :=
  String.mk (s.data.map Char.toLower)

/-- Uppercase one ASCII character by an explicit letter table. -/
def upChar (c : Char) : Char :=
  match c with
  | 'a' => 'A' | 'b' => 'B' | 'c' => 'C' | 'd' => 'D' | 'e' => 'E' | 'f' => 'F'
  | 'g' => 'G' | 'h' => 'H' | 'i' => 'I' | 'j' => 'J' | 'k' => 'K' | 'l' => 'L'
  | 'm' => 'M' | 'n' => 'N' | 'o' => 'O' | 'p' => 'P' | 'q' => 'Q' | 'r' => 'R'
  | 's' => 'S' | 't' => 'T' | 'u' => 'U' | 'v' => 'V' | 'w' => 'W' | 'x' => 'X'
  | 'y' => 'Y' | 'z' => 'Z'
  | _ => c

/-- Uppercase a string character by character (models `s.toUpperCase()` on
the ASCII data in scope). -/
def toUpperStr (s : String) : String :=
  String.mk (s.data.map upChar)

/-- Join lines with newlines (models `lines.join('\n')`). -/
def joinNl : List String → String
  | [] => ""
  | [l] => l
  | l :: rest => l ++ "\n" ++ joinNl rest

/-- Substring containment on character lists (models `hay.includes(needle)`). -/
def containsList (hay needle : List Char) : Bool :=
  match hay with
  | [] => needle.isEmpty
  | _ :: t => needle.isPrefixOf hay || containsList t needle

/-- Replace the first occurrence of `target` in `s` by `repl` (models
`s.replace(target, repl)` with a plain-string pattern). -/
def replaceFirst (s target repl : List Char) : List Char :=
  match s with
  | [] => []
  | c :: rest =>
    if target.isPrefixOf s then repl ++ s.drop target.length
    else c :: replaceFirst rest target repl

/-- One parsed line of an env file. -/
structure EnvEntry where
  key : String
  value : String
  line : Nat
  comment : Option String := none
  precedingComments : Option (List String) := none
deriving Repr, DecidableEq

/-- Identifier start characters of the key pattern `[A-Za-z_]`. -/
def isIdentStart (c : Char) : Bool :=
  ('A' ≤ c && c ≤ 'Z') || ('a' ≤ c && c ≤ 'z') || c == '_'

/-- Identifier continuation characters of the key pattern `[A-Za-z0-9_]`. -/
def isIdentChar (c : Char) : Bool :=
  isIdentStart c || ('0' ≤ c && c ≤ '9')

/-- Match a trimmed line against `^([A-Za-z_][A-Za-z0-9_]*)=(.*)$`, giving
the key and the raw value text after the equals sign. -/
def matchKeyValue (cs : List Char) : Option (String × List Char) :=
  match cs.takeWhile isIdentChar, cs.dropWhile isIdentChar with
  | [], _ => none
  | k :: ks, '=' :: rv =>
    if isIdentStart k then some (String.mk (k :: ks), rv) else none
  | _ :: _, _ => none

/-- First index at which the two-character sequence space-hash occurs
(models `rawValue.indexOf(' #')`). -/
def indexOfSpaceHash : List Char → Option Nat
  | [] => none
  | c :: rest =>
    if c == ' ' && rest.head? == some '#' then some 0
    else (indexOfSpaceHash rest).map (· + 1)

/-- Split a raw value into the value text and an optional inline comment,
following the source's quoted / unquoted handling. -/
def parseRawValue (rawValue : List Char) : List Char × Option String :=
  if rawValue.head? == some '"' || rawValue.head? == some '\'' then
    let quote := rawValue.headD ' '
    match (rawValue.drop 1).findIdx? (· == quote) with
    | some i =>
      let value := (rawValue.drop 1).take i
      let afterQuote := trimChars (rawValue.drop (i + 2))
      if afterQuote.head? == some '#' then (value, some (String.mk afterQuote))
      else (value, none)
    | none => (rawValue, none)
  else
    match indexOfSpaceHash rawValue with
    | some i =>
      if i > 0 then
        (trimChars (rawValue.take i), some (String.mk (trimChars (rawValue.drop (i + 1)))))
      else (rawValue, none)
    | none => (rawValue, none)

/-- Strip one layer of leading and trailing quote characters (models
`value.replace(/^["']|["']$/g, '')`). -/
def stripQuotesList (cs : List Char) : List Char :=
  let cs1 := if cs.head? == some '"' || cs.head? == some '\'' then cs.drop 1 else cs
  match cs1.getLast? with
  | some c => if c == '"' || c == '\'' then cs1.dropLast else cs1
  | none => cs1

/-- The line-by-line parsing loop: `idx` is the 0-based index of the next
line, `buf` the pending preceding-comments buffer. -/
def parseEnvLines (preserveComments : Bool) (idx : Nat) (buf : List String) :
    List String → List EnvEntry
  | [] => []
  | line :: rest =>
    let trimmedLine := trimStr line
    if trimmedLine.data.head? == some '#' then
      parseEnvLines preserveComments (idx + 1)
        (if preserveComments then buf ++ [trimmedLine] else buf) rest
    else if trimmedLine.data.isEmpty then
      parseEnvLines preserveComments (idx + 1) buf rest
    else
      match matchKeyValue trimmedLine.data with
      | some (key, rawValue) =>
        let vc := parseRawValue rawValue
        { key := key
          value := String.mk (stripQuotesList vc.1)
          line := idx + 1
          comment := if preserveComments then vc.2 else none
          precedingComments :=
            if preserveComments && buf.length > 0 then some buf else none } ::
          parseEnvLines preserveComments (idx + 1) [] rest
      | none => parseEnvLines preserveComments (idx + 1) buf rest

/-- Parse `.env` file content into entries (models `parseEnvContent`). -/
def parseEnvContent (content : String) (preserveComments : Bool := true) :
    List EnvEntry :=
  parseEnvLines preserveComments 0 [] (splitNl content.data [])

/-- Extract just the keys from env entries. -/
def extractKeys (entries : List EnvEntry) : List String :=
  entries.map (fun entry => entry.key)

/-- Drift comparison output. -/
structure DriftResult where
  isSynced : Bool
  missingInExample : List String
  missingInLocal : List String
  envKeys : List String
  exampleKeys : List String
deriving Repr, DecidableEq

/-- Detect drift between the key lists of `.env` and `.env.example`. -/
def detectDrift (localKeys exampleKeys : List String) : DriftResult :=
  let missingInExample := localKeys.filter (fun key => !(exampleKeys.contains key))
  let missingInLocal := exampleKeys.filter (fun key => !(localKeys.contains key))
  { isSynced := missingInExample.length == 0 && missingInLocal.length == 0
    missingInExample := missingInExample
    missingInLocal := missingInLocal
    envKeys := localKeys
    exampleKeys := exampleKeys }

/-- Regular expression syntax used to model JavaScript regexes: empty
language, empty word, a character class given by a predicate, concatenation,
alternation and Kleene star. -/
inductive RE where
  | emp : RE
  | eps : RE
  | cls : (Char → Bool) → RE
  | cat : RE → RE → RE
  | alt : RE → RE → RE
  | star : RE → RE

/-- Whether a regex accepts the empty word. -/
def nullable : RE → Bool
  | .emp => false
  | .eps => true
  | .cls _ => false
  | .cat a b => nullable a && nullable b
  | .alt a b => nullable a || nullable b
  | .star _ => true

/-- Brzozowski derivative of a regex with respect to one character. -/
def deriv (c : Char) : RE → RE
  | .emp => .emp
  | .eps => .emp
  | .cls p => if p c then .eps else .emp
  | .cat a b =>
    if nullable a then .alt (.cat (deriv c a) b) (deriv c b)
    else .cat (deriv c a) b
  | .alt a b => .alt (deriv c a) (deriv c b)
  | .star a => .cat (deriv c a) (.star a)

/-- Whole-list regex matching by iterated derivatives. -/
def matchList (r : RE) : List Char → Bool
  | [] => nullable r
  | c :: cs => matchList (deriv c r) cs

/-- Whole-string regex matching.  Each modelled pattern is arranged so that
whole-string matching coincides with JavaScript `pattern.test(value)`. -/
def reTest (r : RE) (s : String) : Bool :=
  matchList r s.data

/-- Single literal character. -/
def chr (c : Char) : RE :=
  .cls (fun x => x == c)

/-- The class `.` of JavaScript: any character except a line terminator. -/
def anyChar : RE :=
  .cls (fun c => !(c == '\n' || c == '\r' || c == ' ' || c == ' '))

/-- Any character whatsoever; `anyStar` pads the unanchored end of a
pattern, where `test` may match a proper prefix. -/
def anyStar : RE :=
  .star (.cls (fun _ => true))

/-- Postfix `+`. -/
def plusRE (r : RE) : RE :=
  .cat r (.star r)

/-- Postfix `?`. -/
def optRE (r : RE) : RE :=
  .alt .eps r

/-- Exact repetition `{n}`. -/
def repN (r : RE) : Nat → RE
  | 0 => .eps
  | n + 1 => .cat r (repN r n)

/-- Repetition `{n,}`. -/
def repAtLeast (r : RE) (n : Nat) : RE :=
  .cat (repN r n) (.star r)

/-- Repetition `{lo,hi}`. -/
def repRange (r : RE) (lo hi : Nat) : RE :=
  .cat (repN r lo) (repN (optRE r) (hi - lo))

/-- Concatenation of a list of regexes. -/
def catList : List RE → RE
  | [] => .eps
  | [r] => r
  | r :: rs => .cat r (catList rs)

/-- Literal string. -/
def lit (s : String) : RE :=
  catList (s.data.map chr)

/-- Character class `[0-9]`. -/
def digitC : RE :=
  .cls (fun c => '0' ≤ c && c ≤ '9')

/-- Character class `[a-z]`. -/
def lowerC : RE :=
  .cls (fun c => 'a' ≤ c && c ≤ 'z')

/-- Character class `[0-9A-Z]`. -/
def upperDigitC : RE :=
  .cls (fun c => ('0' ≤ c && c ≤ '9') || ('A' ≤ c && c ≤ 'Z'))

/-- Character class `[a-zA-Z0-9]`. -/
def alnumC : RE :=
  .cls (fun c => ('a' ≤ c && c ≤ 'z') || ('A' ≤ c && c ≤ 'Z') || ('0' ≤ c && c ≤ '9'))

/-- Character class `[a-zA-Z0-9_]`. -/
def wordC : RE :=
  .cls (fun c => ('a' ≤ c && c ≤ 'z') || ('A' ≤ c && c ≤ 'Z') || ('0' ≤ c && c ≤ '9') || c == '_')

/-- Character class `[a-zA-Z0-9\-_]`. -/
def dashWordC : RE :=
  .cls (fun c =>
    ('a' ≤ c && c ≤ 'z') || ('A' ≤ c && c ≤ 'Z') || ('0' ≤ c && c ≤ '9') || c == '-' || c == '_')

/-- Character class `[a-zA-Z0-9\-_.]`. -/
def dashWordDotC : RE :=
  .cls (fun c =>
    ('a' ≤ c && c ≤ 'z') || ('A' ≤ c && c ≤ 'Z') || ('0' ≤ c && c ≤ '9') ||
      c == '-' || c == '_' || c == '.')

/-- Character class `[a-f0-9]`. -/
def hexLowerC : RE :=
  .cls (fun c => ('a' ≤ c && c ≤ 'f') || ('0' ≤ c && c ≤ '9'))

/-- Character class `[a-f0-9]` with the `i` flag: also `A-F`. -/
def hexAnyC : RE :=
  .cls (fun c => ('a' ≤ c && c ≤ 'f') || ('A' ≤ c && c ≤ 'F') || ('0' ≤ c && c ≤ '9'))

/-- Character class `[A-Za-z0-9+/]`. -/
def base64C : RE :=
  .cls (fun c =>
    ('a' ≤ c && c ≤ 'z') || ('A' ≤ c && c ≤ 'Z') || ('0' ≤ c && c ≤ '9') || c == '+' || c == '/')

/-- Character class `[A-Za-z0-9/+=]`. -/
def awsSecretC : RE :=
  .cls (fun c =>
    ('a' ≤ c && c ≤ 'z') || ('A' ≤ c && c ≤ 'Z') || ('0' ≤ c && c ≤ '9') ||
      c == '/' || c == '+' || c == '=')

/-- Character class `[a-z0-9]`. -/
def lowerDigitC : RE :=
  .cls (fun c => ('a' ≤ c && c ≤ 'z') || ('0' ≤ c && c ≤ '9'))

/-- Character class `[0-9a-zA-Z\-]`. -/
def slackBodyC : RE :=
  .cls (fun c =>
    ('a' ≤ c && c ≤ 'z') || ('A' ≤ c && c ≤ 'Z') || ('0' ≤ c && c ≤ '9') || c == '-')

/-- Character class `[baprs]`. -/
def slackKindC : RE :=
  .cls (fun c => c == 'b' || c == 'a' || c == 'p' || c == 'r' || c == 's')

/-- Character class `\s`: whitespace. -/
def spaceC : RE :=
  .cls (fun c =>
    c == ' ' || c == '\t' || c == '\n' || c == '\r' || c == '\x0b' || c == '\x0c')

/-- Provider-specific patterns that detect secrets by value shape, each
hand-translated from the source's regex literal into the regex syntax above
(with a trailing `anyStar` where the source pattern has no `$` anchor). -/
def PROVIDER_PATTERNS : List (String × RE) := [
  ("AWS Access Key ID", catList [lit "AKIA", repN upperDigitC 16]),
  ("AWS Secret Access Key", repN awsSecretC 40),
  ("Stripe Secret Key",
    catList [lit "sk_", .alt (lit "live") (lit "test"), lit "_", repAtLeast alnumC 20]),
  ("Stripe Publishable Key",
    catList [lit "pk_", .alt (lit "live") (lit "test"), lit "_", repAtLeast alnumC 20]),
  ("Stripe Restricted Key",
    catList [lit "rk_", .alt (lit "live") (lit "test"), lit "_", repAtLeast alnumC 20]),
  ("Stripe Webhook Secret", catList [lit "whsec_", repAtLeast alnumC 20]),
  ("GitHub Personal Access Token (Classic)", catList [lit "ghp_", repN alnumC 36]),
  ("GitHub OAuth Access Token", catList [lit "gho_", repN alnumC 36]),
  ("GitHub App Token", catList [lit "ghu_", repN alnumC 36]),
  ("GitHub App Installation Token", catList [lit "ghs_", repN alnumC 36]),
  ("GitHub App Refresh Token", catList [lit "ghr_", repN alnumC 36]),
  ("GitHub Fine-grained PAT", catList [lit "github_pat_", plusRE wordC]),
  ("GitLab Personal Access Token", catList [lit "glpat-", repAtLeast dashWordC 20]),
  ("GitLab Pipeline Token", catList [lit "glptt-", repAtLeast dashWordC 20]),
  ("PostgreSQL Connection String",
    catList [lit "postgres", optRE (lit "ql"), lit "://", plusRE anyChar, anyStar]),
  ("MySQL Connection String", catList [lit "mysql://", plusRE anyChar, anyStar]),
  ("MongoDB Connection String",
    catList [lit "mongodb", optRE (lit "+srv"), lit "://", plusRE anyChar, anyStar]),
  ("Redis Connection String",
    catList [lit "redis", optRE (lit "s"), lit "://", plusRE anyChar, anyStar]),
  ("SQLite Connection String", catList [lit "sqlite://", plusRE anyChar, anyStar]),
  ("Bearer Token", catList [lit "Bearer", plusRE spaceC, plusRE dashWordDotC, anyStar]),
  ("JWT Token",
    catList [lit "eyJ", plusRE dashWordC, chr '.', plusRE dashWordC, chr '.',
      plusRE dashWordC, anyStar]),
  ("Base64 Encoded Secret (long)", catList [repAtLeast base64C 64, repRange (chr '=') 0 2]),
  ("Google API Key", catList [lit "AIza", repN dashWordC 35]),
  ("Google OAuth Client ID",
    catList [plusRE digitC, chr '-', plusRE lowerDigitC, lit ".apps.googleusercontent.com"]),
  ("Slack Token", catList [lit "xox", slackKindC, chr '-', repAtLeast slackBodyC 10]),
  ("Slack Webhook URL",
    catList [lit "https://hooks.slack.com/services/", plusRE anyChar, anyStar]),
  ("Discord Webhook URL",
    catList [lit "https://", .alt (lit "discord") (lit "discordapp"),
      lit ".com/api/webhooks/", plusRE anyChar, anyStar]),
  ("Twilio Account SID", catList [lit "AC", repN hexLowerC 32]),
  ("Twilio Auth Token", repN hexLowerC 32),
  ("SendGrid API Key",
    catList [lit "SG.", repN dashWordC 22, chr '.', repN dashWordC 43]),
  ("Mailgun API Key", catList [lit "key-", repN hexLowerC 32]),
  ("Mailchimp API Key",
    catList [repN hexLowerC 32, lit "-us", digitC, optRE digitC]),
  ("NPM Token", catList [lit "npm_", repN alnumC 36]),
  ("Heroku API Key",
    catList [repN hexLowerC 8, chr '-', repN hexLowerC 4, chr '-', repN hexLowerC 4,
      chr '-', repN hexLowerC 4, chr '-', repN hexLowerC 12]),
  ("OpenAI API Key", catList [lit "sk-", repN alnumC 48]),
  ("Anthropic API Key", catList [lit "sk-ant-", plusRE dashWordC]),
  ("Supabase Anon Key",
    catList [lit "eyJhbGciOiJIUzI1NiIsInR5cCI6IkpXVCJ9", chr '.', plusRE dashWordC,
      chr '.', plusRE dashWordC]),
  ("Clerk Secret Key",
    catList [lit "sk_", .alt (lit "test") (lit "live"), lit "_", plusRE alnumC]),
  ("Clerk Publishable Key",
    catList [lit "pk_", .alt (lit "test") (lit "live"), lit "_", plusRE alnumC]),
  ("Private Key (PEM)",
    catList [lit "-----BEGIN ",
      optRE (.alt (lit "RSA ") (.alt (lit "EC ") (.alt (lit "DSA ") (lit "OPENSSH ")))),
      lit "PRIVATE KEY-----", anyStar]),
  ("Hex Secret (32+ chars)", repAtLeast hexAnyC 32)]

/-- Default sensitive keywords for smart scrubbing. -/
def DEFAULT_SENSITIVE_KEYWORDS : List String := [
  "password", "pass", "pwd", "secret", "key", "token", "auth", "api",
  "private", "credential", "jwt", "hash", "salt", "encrypt", "url", "uri",
  "connection", "dsn", "host", "port", "database", "db", "redis", "mongo",
  "postgres", "mysql", "smtp", "mail", "sendgrid", "twilio", "stripe",
  "aws", "gcp", "azure", "firebase", "supabase", "clerk", "oauth",
  "client_id", "client_secret", "access", "refresh", "bearer", "webhook",
  "signing", "encryption"]

/-- All sensitive keywords including custom ones. -/
def getSensitiveKeywords (customKeywords : List String := []) : List String :=
  DEFAULT_SENSITIVE_KEYWORDS ++ customKeywords

/-- Whether a key is sensitive: its lowercased form contains some keyword
as a substring. -/
def isSensitiveKey (key : String) (customKeywords : List String := []) : Bool :=
  let lowerKey := toLowerStr key
  (getSensitiveKeywords customKeywords).any
    (fun keyword => containsList lowerKey.data keyword.data)

/-- Caller-supplied custom pattern: a name and a regex source string. -/
structure CustomPattern where
  name : String
  pattern : String
deriving Repr, DecidableEq

/-- Predicate of one escape class inside the pattern compiler: `\d`, `\w`,
`\s` and their negations; any other escaped character stands for itself. -/
def escClassPred (c : Char) : Char → Bool :=
  match c with
  | 'd' => fun x => '0' ≤ x && x ≤ '9'
  | 'D' => fun x => !('0' ≤ x && x ≤ '9')
  | 'w' => fun x =>
      ('a' ≤ x && x ≤ 'z') || ('A' ≤ x && x ≤ 'Z') || ('0' ≤ x && x ≤ '9') || x == '_'
  | 'W' => fun x =>
      !(('a' ≤ x && x ≤ 'z') || ('A' ≤ x && x ≤ 'Z') || ('0' ≤ x && x ≤ '9') || x == '_')
  | 's' => fun x =>
      x == ' ' || x == '\t' || x == '\n' || x == '\r' || x == '\x0b' || x == '\x0c'
  | 'S' => fun x =>
      !(x == ' ' || x == '\t' || x == '\n' || x == '\r' || x == '\x0b' || x == '\x0c')
  | _ => fun x => x == c

/-- Parse the items of a character class body into a predicate: ranges
`a-b`, escapes, plain characters.  Returns `none` on a dangling escape. -/
def parseClassItems : List Char → Option (Char → Bool)
  | [] => some (fun _ => false)
  | ['\\'] => none
  | '\\' :: e :: rest => do
    let q ← parseClassItems rest
    some (fun x => escClassPred e x || q x)
  | a :: '-' :: b :: rest =>
    if b == '\\' then
      match rest with
      | e :: rest2 => do
        let q ← parseClassItems rest2
        some (fun x => (a ≤ x && x ≤ e) || q x)
      | [] => none
    else do
      let q ← parseClassItems rest
      some (fun x => (a ≤ x && x ≤ b) || q x)
  | a :: rest => do
    let q ← parseClassItems rest
    some (fun x => x == a || q x)

/-- Parse a full character class body, handling a leading `^` negation. -/
def parseCharClass (body : List Char) : Option (Char → Bool) :=
  match body with
  | '^' :: items => do
    let p ← parseClassItems items
    some (fun x => !(p x))
  | items => parseClassItems items

/-- Pattern-compiler loop over the remaining characters; `acc` holds the
parsed atoms in reverse.  Returns `none` on syntax the model rejects
(dangling escape or quantifier, unterminated class, grouping, alternation),
modelling a `new RegExp` failure. -/
def parseRegexLoop : Nat → List Char → List RE → Option (List RE)
  | _, [], acc => some acc
  | 0, _ :: _, _ => none
  | fuel + 1, c :: rest, acc =>
    if c == '\\' then
      match rest with
      | [] => none
      | e :: rest2 => parseRegexLoop fuel rest2 (RE.cls (escClassPred e) :: acc)
    else if c == '.' then
      parseRegexLoop fuel rest (anyChar :: acc)
    else if c == '*' then
      match acc with
      | [] => none
      | a :: acc2 => parseRegexLoop fuel rest (RE.star a :: acc2)
    else if c == '+' then
      match acc with
      | [] => none
      | a :: acc2 => parseRegexLoop fuel rest (plusRE a :: acc2)
    else if c == '?' then
      match acc with
      | [] => none
      | a :: acc2 => parseRegexLoop fuel rest (optRE a :: acc2)
    else if c == '[' then
      match rest.dropWhile (fun x => !(x == ']')) with
      | [] => none
      | _ :: rest2 =>
        match parseCharClass (rest.takeWhile (fun x => !(x == ']'))) with
        | some p => parseRegexLoop fuel rest2 (RE.cls p :: acc)
        | none => none
    else if c == '(' || c == ')' || c == '|' then none
    else
      parseRegexLoop fuel rest (chr c :: acc)

/-- Compile a caller-supplied pattern string into a whole-string regex with
`test` search semantics, or `none` when the pattern is invalid for the
modelled syntax (models `new RegExp(pattern)` throwing). -/
def compileRegex (pattern : String) : Option RE :=
  let cs0 := pattern.data
  let anchoredStart := cs0.head? == some '^'
  let cs1 := if anchoredStart then cs0.drop 1 else cs0
  let anchoredEnd := cs1.getLast? == some '$'
  let cs2 := if anchoredEnd then cs1.dropLast else cs1
  match parseRegexLoop (cs2.length + 1) cs2 [] with
  | none => none
  | some acc =>
    let core := catList acc.reverse
    let r1 := if anchoredStart then core else RE.cat anyStar core
    some (if anchoredEnd then r1 else RE.cat r1 anyStar)

/-- Scan the custom patterns in caller order; an invalid pattern is skipped
as if absent. -/
def findCustomPattern (value : String) : List CustomPattern → Option String
  | [] => none
  | cp :: rest =>
    match compileRegex cp.pattern with
    | some r =>
      if reTest r value then some ("Custom: " ++ cp.name)
      else findCustomPattern value rest
    | none => findCustomPattern value rest

/-- Check a value against the built-in provider patterns in table order, then
against the custom patterns; the provider name on a match, else `none`. -/
def detectProviderSecret (value : String)
    (customPatterns : List CustomPattern := []) : Option String :=
  match PROVIDER_PATTERNS.find? (fun np => reTest np.2 value) with
  | some np => some np.1
  | none => findCustomPattern value customPatterns

/-- Generate the placeholder for a key: the format string with its first
`\x7bKEY\x7d` occurrence replaced by the upper-cased key. -/
def generatePlaceholder (key : String) (format : Option String := none) : String :=
  let fmt := format.getD "YOUR_{KEY}_HERE"
  String.mk (replaceFirst fmt.data "{KEY}".data (toUpperStr key).data)

/-- Options consumed by the classifier. -/
structure ScrubOptions where
  strictMode : Bool := false
  ignore : List String := []
  alwaysScrub : List String := []
  customSensitiveKeywords : List String := []
  customPatterns : List CustomPattern := []
  placeholderFormat : Option String := none
deriving Repr, DecidableEq

/-- Classifier output for one key. -/
structure SyncedEntry where
  key : String
  originalValue : String
  scrubbedValue : String
  wasScrubbed : Bool
  reason : String
  comment : Option String := none
  precedingComments : Option (List String) := none
deriving Repr, DecidableEq

/-- Smart scrub: decide whether the value of a key must be replaced by the
placeholder, applying ignore list, alwaysScrub list, strict mode, provider
patterns and the sensitive-key heuristic in that order. -/
def scrubValueDetailed (key value : String)
    (options : ScrubOptions := {}) : SyncedEntry :=
  let placeholder := generatePlaceholder key options.placeholderFormat
  if options.ignore.contains key then
    { key := key, originalValue := value
      scrubbedValue := if value == "" then placeholder else value
      wasScrubbed := false, reason := "Ignored (in ignore list)" }
  else if options.alwaysScrub.contains key then
    { key := key, originalValue := value, scrubbedValue := placeholder
      wasScrubbed := true, reason := "Always scrub (in alwaysScrub list)" }
  else if options.strictMode then
    { key := key, originalValue := value, scrubbedValue := placeholder
      wasScrubbed := true, reason := "Strict mode enabled" }
  else
    match detectProviderSecret value options.customPatterns with
    | some providerMatch =>
      { key := key, originalValue := value, scrubbedValue := placeholder
        wasScrubbed := true, reason := "Detected " ++ providerMatch }
    | none =>
      if isSensitiveKey key options.customSensitiveKeywords then
        { key := key, originalValue := value, scrubbedValue := placeholder
          wasScrubbed := true, reason := "Sensitive key name" }
      else
        { key := key, originalValue := value
          scrubbedValue := if value == "" then placeholder else value
          wasScrubbed := false, reason := "Non-sensitive key" }

/-- Simple scrub function for backwards compatibility. -/
def scrubValue (key value : String) (options : ScrubOptions := {}) : String :=
  (scrubValueDetailed key value options).scrubbedValue

/-- EnvDrift signature comment placed at the top of generated files. -/
def ENVDRIFT_SIGNATURE : String :=
  "# This file was synced and scrubbed by EnvDrift\n# https://github.com/sol-21/envdrift"

/-- Options consumed by the generator (the classifier options plus the
generator-only toggles). -/
structure SyncOptions where
  strictMode : Bool := false
  ignore : List String := []
  alwaysScrub : List String := []
  customSensitiveKeywords : List String := []
  customPatterns : List CustomPattern := []
  placeholderFormat : Option String := none
  preserveComments : Bool := false
  merge : Bool := false
  sort : Bool := false
  groupByPrefix : Bool := false
deriving Repr, DecidableEq

/-- The scrub options object the generator builds for its classifier calls.
The source constructs it from `strictMode`, `ignore`, `alwaysScrub`,
`customSensitiveKeywords` and `placeholderFormat` only; it does not copy
`customPatterns`, so that field stays at its default (empty). -/
def processOptions (options : SyncOptions) : ScrubOptions :=
  { strictMode := options.strictMode
    ignore := options.ignore
    alwaysScrub := options.alwaysScrub
    customSensitiveKeywords := options.customSensitiveKeywords
    placeholderFormat := options.placeholderFormat }

/-- Value the generator classifies for a working entry: the value of the
first source entry with the same key when one exists, else the working
entry's own value (models `envEntries.find(...)`). -/
def resolveValue (envEntries : List EnvEntry) (entry : EnvEntry) : String :=
  match envEntries.find? (fun e => e.key == entry.key) with
  | some envEntry => envEntry.value
  | none => entry.value

/-- Classify one working entry, then copy its comments onto the decision
when comment preservation is on. -/
def processEntry (envEntries : List EnvEntry) (options : SyncOptions)
    (entry : EnvEntry) : SyncedEntry :=
  let syncedEntry :=
    scrubValueDetailed entry.key (resolveValue envEntries entry) (processOptions options)
  if options.preserveComments then
    { syncedEntry with
        comment := entry.comment
        precedingComments := entry.precedingComments }
  else syncedEntry

/-- Strict lexicographic comparison of character lists by code unit. -/
def listLt : List Char → List Char → Bool
  | [], [] => false
  | [], _ :: _ => true
  | _ :: _, [] => false
  | a :: as, b :: bs =>
    if a.toNat < b.toNat then true
    else if b.toNat < a.toNat then false
    else listLt as bs

/-- Strict code-unit string comparison (the ordering of a default
JavaScript `Array.prototype.sort()` on strings). -/
def strLtCU (a b : String) : Bool :=
  listLt a.data b.data

/-- Non-strict code-unit string comparison. -/
def strLeCU (a b : String) : Bool :=
  !(strLtCU b a)

/-- Modelling note: the locale-aware comparison `a.localeCompare(b)` used
for key sorting is modelled as case-insensitive code-unit order with a
code-unit tie-break.  No claim depends on the precise collation. -/
def localeLe (a b : String) : Bool :=
  let la := toLowerStr a
  let lb := toLowerStr b
  if la == lb then strLeCU a b else strLtCU la lb

/-- Insert an element into a sorted list, after every element that compares
less-or-equal (a stable insertion, as JavaScript's sort is stable). -/
def orderedInsert {α : Type} (le : α → α → Bool) (x : α) : List α → List α
  | [] => [x]
  | y :: ys => if le y x then y :: orderedInsert le x ys else x :: y :: ys

/-- Stable insertion sort by a boolean comparison. -/
def sortByLe {α : Type} (le : α → α → Bool) (l : List α) : List α :=
  l.foldl (fun acc y => orderedInsert le y acc) []

/-- Bucket name of a key: the leading `[A-Z]+` run when an underscore
follows it, else the catch-all bucket `_OTHER`
(models `key.match(/^([A-Z]+)_/)`). -/
def keyPrefix (key : String) : String :=
  let run := key.data.takeWhile (fun c => 'A' ≤ c && c ≤ 'Z')
  if run.length > 0 && (key.data.drop run.length).head? == some '_' then
    String.mk run
  else "_OTHER"

/-- Append an entry to its bucket, creating the bucket at the end when it
is new (models insertion-ordered `Map` update). -/
def insertGroup (groups : List (String × List SyncedEntry)) (p : String)
    (e : SyncedEntry) : List (String × List SyncedEntry) :=
  match groups with
  | [] => [(p, [e])]
  | (q, es) :: rest =>
    if q == p then (q, es ++ [e]) :: rest else (q, es) :: insertGroup rest p e

/-- Group entries by prefix, preserving first-seen bucket order and
in-bucket entry order. -/
def groupEntriesByPrefix (entries : List SyncedEntry) :
    List (String × List SyncedEntry) :=
  entries.foldl (fun groups e => insertGroup groups (keyPrefix e.key) e) []

/-- Entries of a bucket by name (first bucket with that name; bucket names
are unique by construction). -/
def lookupGroup : List (String × List SyncedEntry) → String → List SyncedEntry
  | [], _ => []
  | g :: rest, p => if g.1 == p then g.2 else lookupGroup rest p

/-- Serialized line of one entry in grouped output: the inline comment is
appended whenever present. -/
def groupedEntryLine (entry : SyncedEntry) : String :=
  match entry.comment with
  | some c => entry.key ++ "=" ++ entry.scrubbedValue ++ " " ++ c
  | none => entry.key ++ "=" ++ entry.scrubbedValue

/-- Serialized line of one entry in flat output: the inline comment is
appended only when comment preservation is on. -/
def flatEntryLine (preserveComments : Bool) (entry : SyncedEntry) : String :=
  match entry.comment with
  | some c =>
    if preserveComments then entry.key ++ "=" ++ entry.scrubbedValue ++ " " ++ c
    else entry.key ++ "=" ++ entry.scrubbedValue
  | none => entry.key ++ "=" ++ entry.scrubbedValue

/-- Lines of one bucket: its heading, then each entry's preceding comments
and serialized line. -/
def groupBlock (pfx : String) (groupEntries : List SyncedEntry) : List String :=
  (if pfx == "_OTHER" then ["# Other"] else ["# " ++ pfx]) ++
    (groupEntries.map (fun e => (e.precedingComments.getD []) ++ [groupedEntryLine e])).flatten

/-- Bucket names of the grouped output, sorted in code-unit order (the
default `Array.prototype.sort()` on the map's keys). -/
def sortedPrefixesOf (processedEntries : List SyncedEntry) : List String :=
  sortByLe strLeCU ((groupEntriesByPrefix processedEntries).map Prod.fst)

/-- Grouped serialization: buckets in sorted prefix order, a blank line
between consecutive buckets; also the flattened entry list in that order. -/
def groupedOutput (processedEntries : List SyncedEntry) :
    List String × List SyncedEntry :=
  let groups := groupEntriesByPrefix processedEntries
  let sortedPrefixes := sortedPrefixesOf processedEntries
  (((sortedPrefixes.map (fun p => groupBlock p (lookupGroup groups p))).intersperse [""]).flatten,
    (sortedPrefixes.map (fun p => lookupGroup groups p)).flatten)

/-- Lines of one entry in flat output: preceding comments (when preserved)
then the serialized line. -/
def flatEntryLines (options : SyncOptions) (syncedEntry : SyncedEntry) :
    List String :=
  (if options.preserveComments then syncedEntry.precedingComments.getD [] else []) ++
    [flatEntryLine options.preserveComments syncedEntry]

/-- The working entry list of the generator: in merge mode all existing
template entries plus the source entries with new keys, else the source
entries; sorted by key when requested. -/
def workingEntries (envEntries existingExampleEntries : List EnvEntry)
    (options : SyncOptions) : List EnvEntry :=
  let existingExampleKeys := extractKeys existingExampleEntries
  let base :=
    if options.merge then
      existingExampleEntries ++
        envEntries.filter (fun e => !(existingExampleKeys.contains e.key))
    else envEntries
  if options.sort then sortByLe (fun a b => localeLe a.key b.key) base else base

/-- Result of the generator. -/
structure GenResult where
  content : String
  entries : List SyncedEntry
  added : List String
  removed : List String
deriving Repr, DecidableEq

/-- Generate synced `.env.example` content with smart scrubbing. -/
def generateSyncedExample (envEntries existingExampleEntries : List EnvEntry)
    (options : SyncOptions := {}) : GenResult :=
  let existingExampleKeys := extractKeys existingExampleEntries
  let envKeys := extractKeys envEntries
  let added := envKeys.filter (fun key => !(existingExampleKeys.contains key))
  let removed :=
    if options.merge then []
    else existingExampleKeys.filter (fun key => !(envKeys.contains key))
  let allEntries := workingEntries envEntries existingExampleEntries options
  let processed := allEntries.map (processEntry envEntries options)
  let body :=
    if options.groupByPrefix then groupedOutput processed
    else ((processed.map (flatEntryLines options)).flatten, processed)
  { content := joinNl (ENVDRIFT_SIGNATURE :: "" :: body.1) ++ "\n"
    entries := body.2
    added := added
    removed := removed }

/-- Kind of one diff row. -/
inductive DiffKind where
  | added : DiffKind
  | removed : DiffKind
  | modified : DiffKind
  | unchanged : DiffKind
deriving Repr, DecidableEq

/-- Per-key row of the visual diff. -/
structure DiffLine where
  type : DiffKind
  key : String
  envValue : Option String := none
  exampleValue : Option String := none
deriving Repr, DecidableEq

/-- Diff rows plus aggregate counts. -/
structure DiffResult where
  lines : List DiffLine
  added : Nat
  removed : Nat
  modified : Nat
  unchanged : Nat
deriving Repr, DecidableEq

/-- Lookup in the key-to-value map built from entries; a later duplicate
key overwrites an earlier one (models `new Map(entries.map(...)).get`). -/
def mapGet (entries : List EnvEntry) (key : String) : Option String :=
  match entries.reverse.find? (fun e => e.key == key) with
  | some e => some e.value
  | none => none

/-- Key list with duplicates removed, keeping first occurrences (models the
iteration order of a JavaScript `Set` union of the two maps' keys). -/
def dedupKeys (l : List String) : List String :=
  l.foldl (fun acc key => if acc.contains key then acc else acc ++ [key]) []

/-- Classification of one key for the diff. -/
def diffLineFor (envEntries exampleEntries : List EnvEntry) (key : String) :
    DiffLine :=
  match mapGet envEntries key, mapGet exampleEntries key with
  | some envValue, none =>
    { type := .added, key := key, envValue := some envValue }
  | none, some exampleValue =>
    { type := .removed, key := key, exampleValue := some exampleValue }
  | some envValue, some exampleValue =>
    if envValue == exampleValue then
      { type := .unchanged, key := key
        envValue := some envValue, exampleValue := some exampleValue }
    else
      { type := .modified, key := key
        envValue := some envValue, exampleValue := some exampleValue }
  | none, none => { type := .unchanged, key := key }

/-- Compute the diff between two entry lists: one row per key of the sorted
key union, plus counts over the full row list. -/
def computeDiff (envEntries exampleEntries : List EnvEntry) : DiffResult :=
  let allKeys := dedupKeys (extractKeys envEntries ++ extractKeys exampleEntries)
  let sortedKeys := sortByLe strLeCU allKeys
  let lines := sortedKeys.map (diffLineFor envEntries exampleEntries)
  { lines := lines
    added := (lines.filter (fun l => l.type == .added)).length
    removed := (lines.filter (fun l => l.type == .removed)).length
    modified := (lines.filter (fun l => l.type == .modified)).length
    unchanged := (lines.filter (fun l => l.type == .unchanged)).length }

/-- Compute the diff showing only changes: the full diff with the unchanged
rows removed from the line list. -/
def computeChangesOnly (envEntries exampleEntries : List EnvEntry) : DiffResult :=
  let fullDiff := computeDiff envEntries exampleEntries
  { fullDiff with lines := fullDiff.lines.filter (fun l => !(l.type == .unchanged)) }

/-- Decision table of the specification's section 4.3: guard and outcome of
each rule, written in the spec's order (ignore, alwaysScrub, strict,
provider pattern, sensitive key name). -/
def specRules (key value : String) (o : ScrubOptions) : List (Bool × SyncedEntry) :=
  let placeholder := generatePlaceholder key o.placeholderFormat
  [(o.ignore.contains key,
    { key := key, originalValue := value
      scrubbedValue := if value == "" then placeholder else value
      wasScrubbed := false, reason := "Ignored (in ignore list)" }),
   (o.alwaysScrub.contains key,
    { key := key, originalValue := value, scrubbedValue := placeholder
      wasScrubbed := true, reason := "Always scrub (in alwaysScrub list)" }),
   (o.strictMode,
    { key := key, originalValue := value, scrubbedValue := placeholder
      wasScrubbed := true, reason := "Strict mode enabled" }),
   ((detectProviderSecret value o.customPatterns).isSome,
    { key := key, originalValue := value, scrubbedValue := placeholder
      wasScrubbed := true
      reason := "Detected " ++ (detectProviderSecret value o.customPatterns).getD "" }),
   (isSensitiveKey key o.customSensitiveKeywords,
    { key := key, originalValue := value, scrubbedValue := placeholder
      wasScrubbed := true, reason := "Sensitive key name" })]

/-- Apply a guarded rule list first-match-wins, with a default outcome. -/
def firstMatching : List (Bool × SyncedEntry) → SyncedEntry → SyncedEntry
  | [], dflt => dflt
  | (g, r) :: rest, dflt => if g then r else firstMatching rest dflt

/-- Classifier as the specification words it: the fixed rule list applied
first-match-wins, falling through to the non-sensitive default. -/
def classifySpec (key value : String) (o : ScrubOptions) : SyncedEntry :=
  firstMatching (specRules key value o)
    { key := key, originalValue := value
      scrubbedValue :=
        if value == "" then generatePlaceholder key o.placeholderFormat else value
      wasScrubbed := false, reason := "Non-sensitive key" }

/-- C2: the classifier applies its rules in the fixed precedence order
ignore, alwaysScrub, strict mode, provider pattern, sensitive key name,
default, first match deciding the outcome (it equals the spec's
first-match-wins rule table); in particular a key present in both
`ignore` and `alwaysScrub` is not scrubbed and keeps its non-empty value. -/
theorem scrubValueDetailed_refines_spec_precedence :
    (∀ (key value : String) (options : ScrubOptions),
      scrubValueDetailed key value options = classifySpec key value options) ∧
    (∀ (key value : String) (options : ScrubOptions),
      options.ignore.contains key = true →
      options.alwaysScrub.contains key = true →
        (scrubValueDetailed key value options).wasScrubbed = false ∧
        (value ≠ "" → (scrubValueDetailed key value options).scrubbedValue = value)) := by
  constructor
  · intro key value options
    by_cases h1 : options.ignore.contains key <;>
    by_cases h2 : options.alwaysScrub.contains key <;>
    by_cases h3 : options.strictMode <;>
    by_cases h5 : isSensitiveKey key options.customSensitiveKeywords <;>
    cases h4 : detectProviderSecret value options.customPatterns <;>
    simp [scrubValueDetailed, classifySpec, specRules, firstMatching, h1, h2, h3, h4, h5]
  · intro key value options h1 _h2
    have h1m : key ∈ options.ignore := by simpa using h1
    constructor
    · simp [scrubValueDetailed, h1m]
    · intro hv
      simp [scrubValueDetailed, h1m, hv]

/-- C2 witness: the concrete precedence check of the spec,
`classify("K","v",{ignoreKeys:["K"], alwaysScrubKeys:["K"]})`. -/
theorem scrubValueDetailed_refines_spec_precedence_witness :
    (scrubValueDetailed "K" "v" { ignore := ["K"], alwaysScrub := ["K"] }).wasScrubbed = false ∧
    ("v" : String) ≠ "" ∧
    (scrubValueDetailed "K" "v" { ignore := ["K"], alwaysScrub := ["K"] }).scrubbedValue = "v" := by
  have h := scrubValueDetailed_refines_spec_precedence.2 "K" "v"
    { ignore := ["K"], alwaysScrub := ["K"] } (by decide) (by decide)
  exact ⟨h.1, by decide, h.2 (by decide)⟩

/-- C7: `detectDrift` is antisymmetric, `missingInExample(A,B)` being
`missingInTemplate(B,A)` (named `missingInLocal` in the code), and
`missingInExample` is the first list filtered to the keys the second list
does not contain, in first-list order. -/
theorem detectDrift_antisymmetric :
    ∀ (A B : List String),
      (detectDrift A B).missingInExample = (detectDrift B A).missingInLocal ∧
      (detectDrift A B).missingInExample = A.filter (fun key => !(B.contains key)) := by
  intro A B
  exact ⟨rfl, rfl⟩

/-- C9: the changes-only diff is exactly the full diff with the unchanged
rows removed from the line list, while every aggregate count equals the
full diff's count. -/
theorem computeChangesOnly_is_filtered_computeDiff :
    ∀ (envEntries exampleEntries : List EnvEntry),
      (computeChangesOnly envEntries exampleEntries).lines =
        (computeDiff envEntries exampleEntries).lines.filter
          (fun l => !(l.type == DiffKind.unchanged)) ∧
      (computeChangesOnly envEntries exampleEntries).added =
        (computeDiff envEntries exampleEntries).added ∧
      (computeChangesOnly envEntries exampleEntries).removed =
        (computeDiff envEntries exampleEntries).removed ∧
      (computeChangesOnly envEntries exampleEntries).modified =
        (computeDiff envEntries exampleEntries).modified ∧
      (computeChangesOnly envEntries exampleEntries).unchanged =
        (computeDiff envEntries exampleEntries).unchanged := by
  intro envEntries exampleEntries
  exact ⟨rfl, rfl, rfl, rfl, rfl⟩

/-- Field bookkeeping of the classifier: the key and original value are
carried through, and every scrubbed branch writes the placeholder. -/
theorem scrubValueDetailed_fields (key value : String) (options : ScrubOptions) :
    (scrubValueDetailed key value options).key = key ∧
    (scrubValueDetailed key value options).originalValue = value ∧
    ((scrubValueDetailed key value options).wasScrubbed = true →
      (scrubValueDetailed key value options).scrubbedValue =
        generatePlaceholder key options.placeholderFormat) := by
  by_cases h1 : key ∈ options.ignore <;>
  by_cases h2 : key ∈ options.alwaysScrub <;>
  by_cases h3 : options.strictMode <;>
  by_cases h5 : isSensitiveKey key options.customSensitiveKeywords <;>
  cases h4 : detectProviderSecret value options.customPatterns <;>
  simp [scrubValueDetailed, h1, h2, h3, h4, h5]

/-- The scrub-relevant fields of a processed entry are those of the
classifier's decision on the resolved value. -/
theorem processEntry_scrub_fields (envEntries : List EnvEntry)
    (options : SyncOptions) (entry : EnvEntry) :
    (processEntry envEntries options entry).key =
      (scrubValueDetailed entry.key (resolveValue envEntries entry)
        (processOptions options)).key ∧
    (processEntry envEntries options entry).originalValue =
      (scrubValueDetailed entry.key (resolveValue envEntries entry)
        (processOptions options)).originalValue ∧
    (processEntry envEntries options entry).scrubbedValue =
      (scrubValueDetailed entry.key (resolveValue envEntries entry)
        (processOptions options)).scrubbedValue ∧
    (processEntry envEntries options entry).wasScrubbed =
      (scrubValueDetailed entry.key (resolveValue envEntries entry)
        (processOptions options)).wasScrubbed := by
  by_cases h : options.preserveComments <;> simp [processEntry, h]

/-- Membership in a bucket after one insertion comes from the old buckets
or is the inserted entry. -/
theorem mem_lookupGroup_insertGroup (groups : List (String × List SyncedEntry))
    (p q : String) (e x : SyncedEntry)
    (h : x ∈ lookupGroup (insertGroup groups p e) q) :
    x ∈ lookupGroup groups q ∨ x = e := by
  induction groups with
  | nil =>
    simp only [insertGroup, lookupGroup] at h
    by_cases hpq : p == q <;> simp [hpq] at h <;> simp [h, lookupGroup]
  | cons g rest ih =>
    by_cases hp : g.1 == p
    · simp only [insertGroup, hp, if_true, lookupGroup] at h
      by_cases hq : g.1 == q <;> simp only [hq, if_true, if_false] at h
      · rcases List.mem_append.mp h with h' | h'
        · exact Or.inl (by simp [lookupGroup, hq, h'])
        · simp at h'
          exact Or.inr h'
      · exact Or.inl (by simpa [lookupGroup, hq] using h)
    · simp only [insertGroup, hp, if_false, lookupGroup] at h
      by_cases hq : g.1 == q <;> simp only [hq, if_true, if_false] at h
      · exact Or.inl (by simpa [lookupGroup, hq] using h)
      · rcases ih (by simpa using h) with h' | h'
        · exact Or.inl (by simpa [lookupGroup, hq] using h')
        · exact Or.inr h'

/-- Everything found in a bucket of `groupEntriesByPrefix` (over a starting
bucket state) is either in the starting state or in the entry list. -/
theorem mem_lookupGroup_foldl (l : List SyncedEntry) :
    ∀ (groups : List (String × List SyncedEntry)) (q : String) (x : SyncedEntry),
      x ∈ lookupGroup (l.foldl (fun gs e => insertGroup gs (keyPrefix e.key) e) groups) q →
      x ∈ lookupGroup groups q ∨ x ∈ l := by
  induction l with
  | nil => intro groups q x h; exact Or.inl (by simpa using h)
  | cons e rest ih =>
    intro groups q x h
    simp only [List.foldl_cons] at h
    rcases ih (insertGroup groups (keyPrefix e.key) e) q x h with h' | h'
    · rcases mem_lookupGroup_insertGroup groups (keyPrefix e.key) q e x h' with h'' | h''
      · exact Or.inl h''
      · exact Or.inr (by simp [h''])
    · exact Or.inr (by simp [h'])

/-- Every entry the generator returns is a processed working entry. -/
theorem mem_generateSyncedExample_entries (envEntries existingExampleEntries : List EnvEntry)
    (options : SyncOptions) (e : SyncedEntry)
    (h : e ∈ (generateSyncedExample envEntries existingExampleEntries options).entries) :
    ∃ entry ∈ workingEntries envEntries existingExampleEntries options,
      e = processEntry envEntries options entry := by
  by_cases hg : options.groupByPrefix
  · simp only [generateSyncedExample, hg, if_true, groupedOutput] at h
    rcases List.mem_flatten.mp h with ⟨bucket, hb, hx⟩
    rcases List.mem_map.mp hb with ⟨p, _hp, rfl⟩
    have hmem := mem_lookupGroup_foldl
      ((workingEntries envEntries existingExampleEntries options).map
        (processEntry envEntries options)) [] p e
      (by simpa [groupEntriesByPrefix] using hx)
    rcases hmem with h' | h'
    · simp [lookupGroup] at h'
    · rcases List.mem_map.mp h' with ⟨entry, hentry, rfl⟩
      exact ⟨entry, hentry, rfl⟩
  · simp only [generateSyncedExample, hg, if_false] at h
    rcases List.mem_map.mp h with ⟨entry, hentry, rfl⟩
    exact ⟨entry, hentry, rfl⟩

/-- C1: a scrubbed decision carries the placeholder as its result value and
never the original value (when that is non-empty and differs from the
placeholder); and every decision the generator emits — whose serialized
line is `key=scrubbedValue` — has this same property, so original values
reach the output only for decisions with `wasScrubbed = false`. -/
theorem scrubbed_decisions_never_leak :
    (∀ (key value : String) (options : ScrubOptions),
      (scrubValueDetailed key value options).originalValue = value ∧
      ((scrubValueDetailed key value options).wasScrubbed = true →
        (scrubValueDetailed key value options).scrubbedValue =
          generatePlaceholder key options.placeholderFormat ∧
        (value ≠ "" → value ≠ generatePlaceholder key options.placeholderFormat →
          (scrubValueDetailed key value options).scrubbedValue ≠ value))) ∧
    (∀ (envEntries existingExampleEntries : List EnvEntry) (options : SyncOptions)
        (e : SyncedEntry),
      e ∈ (generateSyncedExample envEntries existingExampleEntries options).entries →
      e.wasScrubbed = true →
        e.scrubbedValue = generatePlaceholder e.key options.placeholderFormat ∧
        (e.originalValue ≠ "" →
          e.originalValue ≠ generatePlaceholder e.key options.placeholderFormat →
          e.scrubbedValue ≠ e.originalValue)) := by
  have hcore : ∀ (key value : String) (options : ScrubOptions),
      (scrubValueDetailed key value options).originalValue = value ∧
      ((scrubValueDetailed key value options).wasScrubbed = true →
        (scrubValueDetailed key value options).scrubbedValue =
          generatePlaceholder key options.placeholderFormat ∧
        (value ≠ "" → value ≠ generatePlaceholder key options.placeholderFormat →
          (scrubValueDetailed key value options).scrubbedValue ≠ value)) := by
    intro key value options
    obtain ⟨_, hv, hp⟩ := scrubValueDetailed_fields key value options
    refine ⟨hv, fun hw => ⟨hp hw, fun _hne hnp => ?_⟩⟩
    rw [hp hw]
    exact fun hc => hnp hc.symm
  refine ⟨hcore, ?_⟩
  intro envEntries existingExampleEntries options e hmem hw
  obtain ⟨entry, _hentry, rfl⟩ :=
    mem_generateSyncedExample_entries envEntries existingExampleEntries options e hmem
  obtain ⟨hk, ho, hs, hwb⟩ := processEntry_scrub_fields envEntries options entry
  obtain ⟨hk2, ho2, hp2⟩ :=
    scrubValueDetailed_fields entry.key (resolveValue envEntries entry)
      (processOptions options)
  have hw' : (scrubValueDetailed entry.key (resolveValue envEntries entry)
      (processOptions options)).wasScrubbed = true := by rw [← hwb]; exact hw
  have hph : generatePlaceholder (processEntry envEntries options entry).key
      options.placeholderFormat =
      generatePlaceholder entry.key (processOptions options).placeholderFormat := by
    rw [hk, hk2]
    rfl
  constructor
  · rw [hs, hph]
    exact hp2 hw'
  · intro hne hnp
    rw [hs, ho, ho2, hp2 hw']
    rw [ho, ho2] at hne hnp
    rw [hph] at hnp
    exact fun hc => hnp hc.symm

/-- C1 witness: the sensitive key `PASSWORD` with value `x` is scrubbed to
its placeholder both by the classifier and through the generator. -/
theorem scrubbed_decisions_never_leak_witness :
    ((scrubValueDetailed "PASSWORD" "x" {}).wasScrubbed = true ∧
      (scrubValueDetailed "PASSWORD" "x" {}).scrubbedValue = "YOUR_PASSWORD_HERE" ∧
      (scrubValueDetailed "PASSWORD" "x" {}).scrubbedValue ≠ "x") ∧
    (∃ e, e ∈ (generateSyncedExample
        [{ key := "PASSWORD", value := "x", line := 1 }] [] {}).entries ∧
      e.wasScrubbed = true ∧ e.scrubbedValue ≠ e.originalValue) := by
  have h := scrubbed_decisions_never_leak
  constructor
  · refine ⟨by decide, by decide, ?_⟩
    exact ((h.1 "PASSWORD" "x" {}).2 (by decide)).2 (by decide) (by decide)
  · refine ⟨scrubValueDetailed "PASSWORD" "x" {}, by decide, by decide, ?_⟩
    have h2 := h.2 [{ key := "PASSWORD", value := "x", line := 1 }] [] {}
      (scrubValueDetailed "PASSWORD" "x" {}) (by decide) (by decide)
    exact h2.2 (by decide) (by decide)

/-- Skipping an uncompilable custom pattern does not change the custom
pattern scan. -/
theorem findCustomPattern_skip_invalid (value : String) (cp : CustomPattern)
    (hinv : compileRegex cp.pattern = none) :
    ∀ (pre post : List CustomPattern),
      findCustomPattern value (pre ++ cp :: post) = findCustomPattern value (pre ++ post) := by
  intro pre post
  induction pre with
  | nil => simp [findCustomPattern, hinv]
  | cons p rest ih =>
    simp only [List.cons_append, findCustomPattern]
    cases hc : compileRegex p.pattern with
    | none => exact ih
    | some r =>
      by_cases ht : reTest r value <;> simp [ht, ih]

/-- Skipping an uncompilable custom pattern does not change provider
detection. -/
theorem detectProviderSecret_skip_invalid (value : String) (cp : CustomPattern)
    (hinv : compileRegex cp.pattern = none) (pre post : List CustomPattern) :
    detectProviderSecret value (pre ++ cp :: post) =
      detectProviderSecret value (pre ++ post) := by
  unfold detectProviderSecret
  cases hf : PROVIDER_PATTERNS.find? (fun np => reTest np.2 value) with
  | some np => rfl
  | none => exact findCustomPattern_skip_invalid value cp hinv pre post

/-- C6: a custom pattern entry whose pattern string does not compile is
skipped as if absent — classification returns normally with exactly the
decision it would produce without that entry. -/
theorem invalid_custom_pattern_is_skipped :
    ∀ (key value : String) (options : ScrubOptions) (pre post : List CustomPattern)
      (cp : CustomPattern),
      options.customPatterns = pre ++ cp :: post →
      compileRegex cp.pattern = none →
      scrubValueDetailed key value options =
        scrubValueDetailed key value { options with customPatterns := pre ++ post } := by
  intro key value options pre post cp hsplit hinv
  have hd : detectProviderSecret value options.customPatterns =
      detectProviderSecret value (pre ++ post) := by
    rw [hsplit]
    exact detectProviderSecret_skip_invalid value cp hinv pre post
  by_cases h1 : key ∈ options.ignore <;>
  by_cases h2 : key ∈ options.alwaysScrub <;>
  by_cases h3 : options.strictMode <;>
  by_cases h5 : isSensitiveKey key options.customSensitiveKeywords <;>
  cases h4 : detectProviderSecret value (pre ++ post) <;>
  simp [scrubValueDetailed, h1, h2, h3, h5, hd, h4]

/-- C6 witness: the invalid pattern `[` in the configuration leaves the
decision exactly what it is without it. -/
theorem invalid_custom_pattern_is_skipped_witness :
    scrubValueDetailed "COLOR" "blue"
        { customPatterns := [{ name := "bad", pattern := "[" }] } =
      scrubValueDetailed "COLOR" "blue" { customPatterns := [] } := by
  have h := invalid_custom_pattern_is_skipped "COLOR" "blue"
    { customPatterns := [{ name := "bad", pattern := "[" }] } [] []
    { name := "bad", pattern := "[" } rfl rfl
  exact h

/-- A line that matches the key-value pattern is neither a comment line nor
blank. -/
theorem matchKeyValue_head (cs : List Char) (key : String) (rawValue : List Char)
    (h : matchKeyValue cs = some (key, rawValue)) :
    cs.head? ≠ some '#' ∧ cs ≠ [] := by
  constructor
  · intro hh
    cases cs with
    | nil => simp at hh
    | cons c cs' =>
      simp only [List.head?_cons, Option.some.injEq] at hh
      subst hh
      simp [matchKeyValue, List.takeWhile_cons, show isIdentChar '#' = false by decide] at h
  · intro hn
    subst hn
    simp [matchKeyValue] at h

/-- C8: with comment preservation on, blank lines neither flush nor reset
the pending-comments buffer — comment lines separated from the next
key-value line by blank lines are attached to that entry's
`precedingComments` (after the buffer already pending), and the buffer is
cleared exactly when the entry is emitted. -/
theorem blank_lines_keep_comment_buffer :
    ∀ (cs bs buf : List String) (idx : Nat) (line : String) (rest : List String)
      (key : String) (rawValue : List Char),
      (∀ c ∈ cs, (trimStr c).data.head? = some '#') →
      (∀ b ∈ bs, (trimStr b).data = []) →
      matchKeyValue (trimStr line).data = some (key, rawValue) →
      parseEnvLines true idx buf (cs ++ bs ++ line :: rest) =
        { key := key
          value := String.mk (stripQuotesList (parseRawValue rawValue).1)
          line := idx + cs.length + bs.length + 1
          comment := (parseRawValue rawValue).2
          precedingComments :=
            if (buf ++ cs.map trimStr).length > 0 then some (buf ++ cs.map trimStr)
            else none } ::
          parseEnvLines true (idx + cs.length + bs.length + 1) [] rest := by
  intro cs
  induction cs with
  | nil =>
    intro bs
    induction bs with
    | nil =>
      intro buf idx line rest key rawValue _hcs _hbs hkv
      have hne := matchKeyValue_head _ _ _ hkv
      have h1 : ((trimStr line).data.head? == some '#') = false := by
        simp [hne.1]
      have h2 : (trimStr line).data.isEmpty = false := by
        simp [List.isEmpty_iff, hne.2]
      simp [parseEnvLines, h1, h2, hkv]
    | cons b bs' ihb =>
      intro buf idx line rest key rawValue hcs hbs hkv
      have hb : (trimStr b).data = [] := hbs b (by simp)
      have h1 : ((trimStr b).data.head? == some '#') = false := by simp [hb]
      have h2 : (trimStr b).data.isEmpty = true := by simp [hb]
      have hstep : parseEnvLines true idx buf (([] : List String) ++ (b :: bs') ++ line :: rest) =
          parseEnvLines true (idx + 1) buf (([] : List String) ++ bs' ++ line :: rest) := by
        simp [parseEnvLines, h1, h2]
      rw [hstep, ihb buf (idx + 1) line rest key rawValue hcs
        (fun x hx => hbs x (by simp [hx])) hkv]
      have hlen : idx + 1 + List.length ([] : List String) + bs'.length + 1 =
          idx + List.length ([] : List String) + (b :: bs').length + 1 := by
        simp only [List.length_nil, List.length_cons]
        omega
      rw [hlen]
  | cons c cs' ihc =>
    intro bs buf idx line rest key rawValue hcs hbs hkv
    have hc : (trimStr c).data.head? = some '#' := hcs c (by simp)
    have h1 : ((trimStr c).data.head? == some '#') = true := by simp [hc]
    have hstep : parseEnvLines true idx buf ((c :: cs') ++ bs ++ line :: rest) =
        parseEnvLines true (idx + 1) (buf ++ [trimStr c]) (cs' ++ bs ++ line :: rest) := by
      simp [parseEnvLines, h1]
    rw [hstep, ihc bs (buf ++ [trimStr c]) (idx + 1) line rest key rawValue
      (fun x hx => hcs x (by simp [hx])) hbs hkv]
    have hbufeq : buf ++ [trimStr c] ++ cs'.map trimStr =
        buf ++ (c :: cs').map trimStr := by
      simp [List.append_assoc]
    have hlen : idx + 1 + cs'.length + bs.length + 1 =
        idx + (c :: cs').length + bs.length + 1 := by
      simp only [List.length_cons]
      omega
    rw [hbufeq, hlen]

/-- C8 witness: a comment line, then a blank line, then `A=1`; the comment
is attached to the entry for `A`. -/
theorem blank_lines_keep_comment_buffer_witness :
    parseEnvLines true 0 [] ["# hello", "", "A=1"] =
      [{ key := "A", value := "1", line := 3, comment := none,
         precedingComments := some ["# hello"] }] := by
  have h := blank_lines_keep_comment_buffer ["# hello"] [""] [] 0 "A=1" []
    "A" ['1'] (by decide) (by decide) (by decide)
  simpa using h

/-- A line whose trimmed form starts with `#` never matches the key-value
pattern. -/
theorem matchKeyValue_none_of_hash (cs : List Char) (h : cs.head? = some '#') :
    matchKeyValue cs = none := by
  cases cs with
  | nil => simp at h
  | cons c cs' =>
    simp only [List.head?_cons, Option.some.injEq] at h
    subst h
    simp [matchKeyValue, List.takeWhile_cons, show isIdentChar '#' = false by decide]

/-- The parser emits one entry per line matching the key-value pattern, in
order, with that line's key — duplicate keys are never collapsed. -/
theorem parseEnvLines_keys (pc : Bool) :
    ∀ (lines : List String) (idx : Nat) (buf : List String),
      (parseEnvLines pc idx buf lines).map (fun e => e.key) =
        lines.filterMap (fun l => (matchKeyValue (trimStr l).data).map (fun kr => kr.1)) := by
  intro lines
  induction lines with
  | nil => intro idx buf; simp [parseEnvLines]
  | cons line rest ih =>
    intro idx buf
    by_cases h1 : (trimStr line).data.head? = some '#'
    · have hm := matchKeyValue_none_of_hash _ h1
      have h1b : ((trimStr line).data.head? == some '#') = true := by simp [h1]
      simp [parseEnvLines, h1b, hm, ih]
    · have h1b : ((trimStr line).data.head? == some '#') = false := by simp [h1]
      by_cases h2 : (trimStr line).data.isEmpty
      · have hm : matchKeyValue (trimStr line).data = none := by
          have : (trimStr line).data = [] := by simpa [List.isEmpty_iff] using h2
          simp [matchKeyValue, this]
        simp [parseEnvLines, h1b, h2, hm, ih]
      · cases hm : matchKeyValue (trimStr line).data with
        | none => simp [parseEnvLines, h1b, h2, hm, ih]
        | some kr => simp [parseEnvLines, h1b, h2, hm, ih]

/-- C4 counterexample: with two source entries sharing the key `A` (values
`first` then `second`), the generator classifies both occurrences with the
FIRST duplicate's value, not the last one's, refuting last-one-wins. -/
theorem generator_last_duplicate_counterexample :
    ((generateSyncedExample
        [{ key := "A", value := "first", line := 1 },
         { key := "A", value := "second", line := 2 }] [] {}).entries.map
      (fun e => e.originalValue)) = ["first", "first"] ∧
    ("first" : String) ≠ "second" := by
  constructor
  · rfl
  · decide

/-- C4 amended: the value the generator classifies for a duplicated key is
the FIRST duplicate's value (`Array.prototype.find` semantics); the parser
emits one entry per matching line without collapsing duplicate keys, and
the drift detector returns its key lists verbatim, filtering without
deduplication. -/
theorem generator_uses_first_duplicate :
    (∀ (l1 l2 : List EnvEntry) (e1 entry : EnvEntry),
      (∀ x ∈ l1, x.key ≠ entry.key) → e1.key = entry.key →
      resolveValue (l1 ++ e1 :: l2) entry = e1.value) ∧
    (∀ (envEntries : List EnvEntry) (options : SyncOptions) (entry : EnvEntry),
      (processEntry envEntries options entry).originalValue =
        resolveValue envEntries entry) ∧
    (∀ (pc : Bool) (lines : List String),
      (parseEnvLines pc 0 [] lines).map (fun e => e.key) =
        lines.filterMap (fun l => (matchKeyValue (trimStr l).data).map (fun kr => kr.1))) ∧
    (∀ (A B : List String),
      (detectDrift A B).envKeys = A ∧ (detectDrift A B).exampleKeys = B ∧
      (detectDrift A B).missingInExample = A.filter (fun key => !(B.contains key))) := by
  refine ⟨?_, ?_, ?_, ?_⟩
  · intro l1 l2 e1 entry hl1 he1
    unfold resolveValue
    induction l1 with
    | nil => simp [List.find?_cons, he1]
    | cons x l1' ih =>
      have hx : (x.key == entry.key) = false := by
        simp [hl1 x (by simp)]
      simp only [List.cons_append, List.find?_cons, hx]
      exact ih (fun y hy => hl1 y (by simp [hy]))
  · intro envEntries options entry
    obtain ⟨_, ho, _, _⟩ := processEntry_scrub_fields envEntries options entry
    obtain ⟨_, ho2, _⟩ := scrubValueDetailed_fields entry.key
      (resolveValue envEntries entry) (processOptions options)
    rw [ho, ho2]
  · intro pc lines
    exact parseEnvLines_keys pc lines 0 []
  · intro A B
    exact ⟨rfl, rfl, rfl⟩

/-- C4 amended witness: for the duplicate list `A=first`, `A=second`, the
resolved classification value is `first`. -/
theorem generator_uses_first_duplicate_witness :
    resolveValue
        [{ key := "A", value := "first", line := 1 },
         { key := "A", value := "second", line := 2 }]
        { key := "A", value := "second", line := 2 } = "first" := by
  have h := generator_uses_first_duplicate.1 []
    [{ key := "A", value := "second", line := 2 }]
    { key := "A", value := "first", line := 1 }
    { key := "A", value := "second", line := 2 }
    (by intro x hx; simp at hx) (by decide)
  simpa using h

/-- C3: the classifier honours a valid caller-supplied custom pattern
(scrubbing the matching value with reason `Detected Custom: Test`), but the
generator omits `customPatterns` from the option subset it hands the
classifier, so the same configuration through `generateSyncedExample`
leaves the value unscrubbed and writes it verbatim into the content. -/
theorem generator_drops_custom_patterns :
    (scrubValueDetailed "DATA" "zzzz"
        { customPatterns := [{ name := "Test", pattern := "^zzzz$" }] }).wasScrubbed = true ∧
    (scrubValueDetailed "DATA" "zzzz"
        { customPatterns := [{ name := "Test", pattern := "^zzzz$" }] }).reason =
      "Detected Custom: Test" ∧
    (generateSyncedExample [{ key := "DATA", value := "zzzz", line := 1 }] []
        { customPatterns := [{ name := "Test", pattern := "^zzzz$" }] }).entries.map
        (fun e => (e.wasScrubbed, e.reason, e.scrubbedValue)) =
      [(false, "Non-sensitive key", "zzzz")] ∧
    (generateSyncedExample [{ key := "DATA", value := "zzzz", line := 1 }] []
        { customPatterns := [{ name := "Test", pattern := "^zzzz$" }] }).content =
      ENVDRIFT_SIGNATURE ++ "\n\nDATA=zzzz\n" := by
  exact ⟨rfl, rfl, rfl, rfl⟩

/-- Splitting a newline-free character list gives one segment. -/
theorem splitNl_no_newline :
    ∀ (cs acc : List Char), (∀ c ∈ cs, c ≠ '\n') →
      splitNl cs acc = [String.mk (acc.reverse ++ cs)] := by
  intro cs
  induction cs with
  | nil => intro acc _; simp [splitNl]
  | cons c rest ih =>
    intro acc h
    have hc : (c == '\n') = false := by simp [h c (by simp)]
    rw [splitNl]
    simp only [hc, Bool.false_eq_true, if_false]
    rw [ih (c :: acc) (fun x hx => h x (by simp [hx]))]
    simp

/-- Dropping leading whitespace from a whitespace-free list is the
identity. -/
theorem dropWhile_ws_eq_self (cs : List Char) (h : ∀ c ∈ cs, isWsChar c = false) :
    cs.dropWhile isWsChar = cs := by
  cases cs with
  | nil => rfl
  | cons c rest => simp [List.dropWhile_cons, h c (by simp)]

/-- Trimming a whitespace-free character list is the identity. -/
theorem trimChars_eq_self (cs : List Char) (h : ∀ c ∈ cs, isWsChar c = false) :
    trimChars cs = cs := by
  unfold trimChars
  rw [dropWhile_ws_eq_self cs h,
    dropWhile_ws_eq_self cs.reverse (fun c hc => h c (List.mem_reverse.mp hc)),
    List.reverse_reverse]

/-- A space-free list has no space-hash occurrence. -/
theorem indexOfSpaceHash_none (cs : List Char) (h : ∀ c ∈ cs, c ≠ ' ') :
    indexOfSpaceHash cs = none := by
  induction cs with
  | nil => rfl
  | cons c rest ih =>
    have hc : (c == ' ') = false := by simp [h c (by simp)]
    rw [indexOfSpaceHash]
    simp only [hc, Bool.false_and, Bool.false_eq_true, if_false]
    rw [ih (fun x hx => h x (by simp [hx]))]
    rfl

/-- Taking the identifier prefix of `key ++ '=' ++ rest` splits exactly at
the equals sign. -/
theorem takeWhile_ident_append (l r : List Char)
    (hl : ∀ c ∈ l, isIdentChar c = true) :
    (l ++ '=' :: r).takeWhile isIdentChar = l ∧
    (l ++ '=' :: r).dropWhile isIdentChar = '=' :: r := by
  induction l with
  | nil =>
    simp [List.takeWhile_cons, List.dropWhile_cons,
      show isIdentChar '=' = false from by decide]
  | cons c rest ih =>
    have hc : isIdentChar c = true := hl c (by simp)
    obtain ⟨h1, h2⟩ := ih (fun x hx => hl x (by simp [hx]))
    simp [List.takeWhile_cons, List.dropWhile_cons, hc, h1, h2]

/-- The key-value matcher on a well-formed `key=value` line. -/
theorem matchKeyValue_append (k : String) (w : List Char)
    (hk0 : k.data ≠ [])
    (hkStart : isIdentStart (k.data.headD '0') = true)
    (hkChars : ∀ c ∈ k.data, isIdentChar c = true) :
    matchKeyValue (k.data ++ '=' :: w) = some (k, w) := by
  obtain ⟨h1, h2⟩ := takeWhile_ident_append k.data w hkChars
  unfold matchKeyValue
  rw [h1, h2]
  cases hd : k.data with
  | nil => exact absurd hd hk0
  | cons kh kt =>
    have hks : isIdentStart kh = true := by
      have := hkStart
      rw [hd] at this
      simpa using this
    simp only [hks, if_true]
    congr
    rw [← hd]

/-- A quote-free, space-free raw value parses as itself with no inline
comment. -/
theorem parseRawValue_plain (w : List Char)
    (hq : ∀ c ∈ w, c ≠ '"' ∧ c ≠ '\'')
    (hs : ∀ c ∈ w, c ≠ ' ') :
    parseRawValue w = (w, none) := by
  have hhead : (w.head? == some '"' || w.head? == some '\'') = false := by
    cases w with
    | nil => rfl
    | cons c rest =>
      have := hq c (by simp)
      simp [this.1, this.2]
  unfold parseRawValue
  rw [hhead]
  simp only [Bool.false_eq_true, if_false]
  rw [indexOfSpaceHash_none w hs]

/-- Stripping quotes from a quote-free list is the identity. -/
theorem stripQuotesList_plain (w : List Char)
    (hq : ∀ c ∈ w, c ≠ '"' ∧ c ≠ '\'') :
    stripQuotesList w = w := by
  have hhead : (w.head? == some '"' || w.head? == some '\'') = false := by
    cases w with
    | nil => rfl
    | cons c rest =>
      have := hq c (by simp)
      simp [this.1, this.2]
  unfold stripQuotesList
  rw [hhead]
  simp only [Bool.false_eq_true, if_false]
  cases hl : w.getLast? with
  | none => rfl
  | some c =>
    have hc := hq c (List.mem_of_getLast?_eq_some hl)
    simp [hc.1, hc.2]

/-- Parsing a single well-formed `key=value` line recovers the key and the
value. -/
theorem parseEnvContent_single_line (k w : String)
    (hk0 : k.data ≠ [])
    (hkStart : isIdentStart (k.data.headD '0') = true)
    (hkHash : k.data.headD '0' ≠ '#')
    (hkChars : ∀ c ∈ k.data, isIdentChar c = true)
    (hkWs : ∀ c ∈ k.data, isWsChar c = false)
    (hwWs : ∀ c ∈ w.data, isWsChar c = false)
    (hwQ : ∀ c ∈ w.data, c ≠ '"' ∧ c ≠ '\'') :
    parseEnvContent (k ++ "=" ++ w) true =
      [{ key := k, value := w, line := 1 }] := by
  have hdata : (k ++ "=" ++ w).data = k.data ++ '=' :: w.data := by
    simp [String.data_append]
  have hWsAll : ∀ c ∈ k.data ++ '=' :: w.data, isWsChar c = false := by
    intro c hc
    rcases List.mem_append.mp hc with h | h
    · exact hkWs c h
    · rcases List.mem_cons.mp h with rfl | h
      · decide
      · exact hwWs c h
  have hNl : ∀ c ∈ (k ++ "=" ++ w).data, c ≠ '\n' := by
    rw [hdata]
    intro c hc hceq
    have := hWsAll c hc
    rw [hceq] at this
    simp [isWsChar] at this
  have hsplit : splitNl (k ++ "=" ++ w).data [] = [k ++ "=" ++ w] := by
    rw [splitNl_no_newline _ [] hNl]
    rfl
  have htrim : trimStr (k ++ "=" ++ w) = (k ++ "=" ++ w) := by
    unfold trimStr
    rw [hdata, trimChars_eq_self _ hWsAll, ← hdata]
  have hkv : matchKeyValue (trimStr (k ++ "=" ++ w)).data = some (k, w.data) := by
    rw [htrim, hdata]
    exact matchKeyValue_append k w.data hk0 hkStart hkChars
  have hwS : ∀ c ∈ w.data, c ≠ ' ' := by
    intro c hc hceq
    have := hwWs c hc
    rw [hceq] at this
    simp [isWsChar] at this
  have hne := matchKeyValue_head _ _ _ hkv
  have h1 : ((trimStr (k ++ "=" ++ w)).data.head? == some '#') = false := by
    simp [hne.1]
  have h2 : (trimStr (k ++ "=" ++ w)).data.isEmpty = false := by
    simp [List.isEmpty_iff, hne.2]
  unfold parseEnvContent
  rw [hsplit]
  rw [parseEnvLines]
  simp only [h1, Bool.false_eq_true, if_false, h2, hkv]
  rw [parseRawValue_plain w.data hwQ hwS, stripQuotesList_plain w.data hwQ]
  simp [parseEnvLines]

/-- Characters of a plain identifier key (the amended round-trip claim's
reading of a key with no special characters). -/
def safeKeyChars : List Char :=
  "ABCDEFGHIJKLMNOPQRSTUVWXYZabcdefghijklmnopqrstuvwxyz0123456789_".data

/-- Membership in `safeKeyChars`. -/
def isSafeKeyChar (c : Char) : Bool :=
  safeKeyChars.contains c

/-- Characters allowed to start a key. -/
def safeKeyStartChars : List Char :=
  "ABCDEFGHIJKLMNOPQRSTUVWXYZabcdefghijklmnopqrstuvwxyz_".data

/-- Membership in `safeKeyStartChars`. -/
def isSafeKeyStart (c : Char) : Bool :=
  safeKeyStartChars.contains c

/-- Characters of a value with no special characters: key characters plus
dash and dot. -/
def safeValueChars : List Char :=
  safeKeyChars ++ ['-', '.']

/-- Membership in `safeValueChars`. -/
def isSafeValueChar (c : Char) : Bool :=
  safeValueChars.contains c

/-- Safe key characters are identifier characters and are neither
whitespace nor quotes. -/
theorem safeKeyChar_spec :
    ∀ c ∈ safeKeyChars,
      isIdentChar c = true ∧ isWsChar c = false ∧ c ≠ '"' ∧ c ≠ '\'' := by
  decide

/-- Safe key start characters start identifiers, are not `#`, and are safe
key characters. -/
theorem safeKeyStart_spec :
    ∀ c ∈ safeKeyStartChars,
      isIdentStart c = true ∧ c ≠ '#' ∧ isSafeKeyChar c = true := by
  decide

/-- Uppercasing keeps safe key characters safe. -/
theorem upChar_safeKey :
    ∀ c ∈ safeKeyChars, isSafeKeyChar (upChar c) = true := by
  decide

/-- Safe value characters are neither whitespace nor quotes. -/
theorem safeValueChar_spec :
    ∀ c ∈ safeValueChars, isWsChar c = false ∧ c ≠ '"' ∧ c ≠ '\'' := by
  decide

/-- Every character of the default placeholder of a safe key is a safe key
character. -/
theorem placeholder_chars_safe (k : String)
    (hk : ∀ c ∈ k.data, isSafeKeyChar c = true) :
    ∀ c ∈ (generatePlaceholder k none).data, isSafeKeyChar c = true := by
  have hdata : (generatePlaceholder k none).data =
      "YOUR_".data ++ (k.data.map upChar) ++ "_HERE".data := rfl
  rw [hdata]
  intro c hc
  rcases List.mem_append.mp hc with h | h
  · rcases List.mem_append.mp h with h | h
    · have hy : ∀ x ∈ "YOUR_".data, isSafeKeyChar x = true := by decide
      exact hy c h
    · rcases List.mem_map.mp h with ⟨x, hx, rfl⟩
      exact upChar_safeKey x (by simpa [isSafeKeyChar] using hk x hx)
  · have hh : ∀ x ∈ "_HERE".data, isSafeKeyChar x = true := by decide
    exact hh c h

/-- The classifier never attaches comments itself. -/
theorem scrubValueDetailed_comments (key value : String) (options : ScrubOptions) :
    (scrubValueDetailed key value options).comment = none ∧
    (scrubValueDetailed key value options).precedingComments = none := by
  by_cases h1 : key ∈ options.ignore <;>
  by_cases h2 : key ∈ options.alwaysScrub <;>
  by_cases h3 : options.strictMode <;>
  by_cases h5 : isSensitiveKey key options.customSensitiveKeywords <;>
  cases h4 : detectProviderSecret value options.customPatterns <;>
  simp [scrubValueDetailed, h1, h2, h3, h4, h5]

/-- Under the default configuration the result value is the original value
or the default placeholder. -/
theorem scrub_default_scrubbedValue (k v : String) (hne : v ≠ "") :
    (scrubValueDetailed k v {}).scrubbedValue = v ∨
    (scrubValueDetailed k v {}).scrubbedValue = generatePlaceholder k none := by
  have hv : (v == "") = false := by simp [hne]
  by_cases h5 : isSensitiveKey k [] <;> cases h4 : detectProviderSecret v [] <;>
    simp [scrubValueDetailed, h4, h5, hv]

/-- Under the default configuration an unscrubbed decision keeps the
non-empty original value. -/
theorem scrub_default_unscrubbed (k v : String) (hne : v ≠ "")
    (hw : (scrubValueDetailed k v {}).wasScrubbed = false) :
    (scrubValueDetailed k v {}).scrubbedValue = v := by
  have hv : (v == "") = false := by simp [hne]
  by_cases h5 : isSensitiveKey k [] <;> cases h4 : detectProviderSecret v [] <;>
    simp [scrubValueDetailed, h4, h5, hv] at hw ⊢

/-- Serialized content of a single-entry working list under the default
configuration: the signature, a blank line, and one `key=value` line
carrying the decision's result value. -/
theorem generateSyncedExample_single_default (k v : String) :
    (generateSyncedExample [{ key := k, value := v, line := 1 }] [] {}).content =
      ENVDRIFT_SIGNATURE ++ "\n\n" ++
        (k ++ "=" ++ (scrubValueDetailed k v {}).scrubbedValue) ++ "\n" := by
  have hres : resolveValue [{ key := k, value := v, line := 1 }]
      { key := k, value := v, line := 1 } = v := by
    simp [resolveValue, List.find?]
  have hproc : processEntry [{ key := k, value := v, line := 1 }] {}
      { key := k, value := v, line := 1 } = scrubValueDetailed k v {} := by
    simp [processEntry, hres]
    rfl
  have hcmt := scrubValueDetailed_comments k v {}
  have hkey := (scrubValueDetailed_fields k v {}).1
  have hline : flatEntryLine false (scrubValueDetailed k v {}) =
      k ++ "=" ++ (scrubValueDetailed k v {}).scrubbedValue := by
    unfold flatEntryLine
    rw [hcmt.1, hkey]
  show joinNl (ENVDRIFT_SIGNATURE :: "" ::
      (([{ key := k, value := v, line := 1 }].map
        (processEntry [{ key := k, value := v, line := 1 }] ({} : SyncOptions))).map
        (flatEntryLines {})).flatten) ++ "\n" = _
  rw [List.map_singleton, hproc, List.map_singleton]
  unfold flatEntryLines
  simp only [Bool.false_eq_true, if_false, List.nil_append, List.flatten,
    List.append_nil]
  rw [hline]
  apply congrArg (fun s => s ++ "\n")
  apply String.ext
  simp [joinNl, String.data_append, List.append_assoc]

/-- C5 counterexample: the entry `PASSWORD=x` has no comment and a value
with no special characters, yet the default-configuration round trip
yields `YOUR_PASSWORD_HERE`, not `x` — the key-name heuristic scrubs it. -/
theorem roundtrip_counterexample :
    (generateSyncedExample [{ key := "PASSWORD", value := "x", line := 1 }] [] {}).content =
      ENVDRIFT_SIGNATURE ++ "\n\nPASSWORD=YOUR_PASSWORD_HERE\n" ∧
    parseEnvContent "PASSWORD=YOUR_PASSWORD_HERE" true =
      [{ key := "PASSWORD", value := "YOUR_PASSWORD_HERE", line := 1 }] ∧
    ("YOUR_PASSWORD_HERE" : String) ≠ "x" := by
  exact ⟨rfl, rfl, by decide⟩

/-- C5 amended: serializing a single-entry working list with the default
configuration and re-parsing the resulting `KEY=value` line recovers the
same key and the serialized value, which is the entry's original value
exactly when the decision is not scrubbed (for a comment-free entry whose
key is a plain identifier and whose non-empty value has no special
characters). -/
theorem roundtrip_recovers_serialized_value :
    ∀ (k v : String),
      k.data ≠ [] →
      isSafeKeyStart (k.data.headD '0') = true →
      (∀ c ∈ k.data, isSafeKeyChar c = true) →
      v ≠ "" →
      (∀ c ∈ v.data, isSafeValueChar c = true) →
      (generateSyncedExample [{ key := k, value := v, line := 1 }] [] {}).content =
        ENVDRIFT_SIGNATURE ++ "\n\n" ++
          (k ++ "=" ++ (scrubValueDetailed k v {}).scrubbedValue) ++ "\n" ∧
      parseEnvContent (k ++ "=" ++ (scrubValueDetailed k v {}).scrubbedValue) true =
        [{ key := k, value := (scrubValueDetailed k v {}).scrubbedValue, line := 1 }] ∧
      ((scrubValueDetailed k v {}).wasScrubbed = false →
        (scrubValueDetailed k v {}).scrubbedValue = v) := by
  intro k v hk0 hkS hkC hv hvC
  have hhead : isIdentStart (k.data.headD '0') = true ∧ (k.data.headD '0') ≠ '#' := by
    cases hd : k.data with
    | nil => exact absurd hd hk0
    | cons c t =>
      have hc : isSafeKeyStart c = true := by rw [hd] at hkS; simpa using hkS
      have hspec := safeKeyStart_spec c (by simpa [isSafeKeyStart] using hc)
      simp [hd, hspec.1, hspec.2.1]
  have hkChars : ∀ c ∈ k.data, isIdentChar c = true := fun c hc =>
    (safeKeyChar_spec c (by simpa [isSafeKeyChar] using hkC c hc)).1
  have hkWs : ∀ c ∈ k.data, isWsChar c = false := fun c hc =>
    (safeKeyChar_spec c (by simpa [isSafeKeyChar] using hkC c hc)).2.1
  have hsvChars : ∀ c ∈ (scrubValueDetailed k v {}).scrubbedValue.data,
      isWsChar c = false ∧ c ≠ '"' ∧ c ≠ '\'' := by
    rcases scrub_default_scrubbedValue k v hv with h | h <;> rw [h]
    · intro c hc
      exact safeValueChar_spec c (by simpa [isSafeValueChar] using hvC c hc)
    · intro c hc
      have hsafe := placeholder_chars_safe k hkC c hc
      have hspec := safeKeyChar_spec c (by simpa [isSafeKeyChar] using hsafe)
      exact ⟨hspec.2.1, hspec.2.2.1, hspec.2.2.2⟩
  refine ⟨generateSyncedExample_single_default k v, ?_, scrub_default_unscrubbed k v hv⟩
  exact parseEnvContent_single_line k _ hk0 hhead.1 hhead.2 hkChars hkWs
    (fun c hc => (hsvChars c hc).1)
    (fun c hc => ⟨(hsvChars c hc).2.1, (hsvChars c hc).2.2⟩)

/-- C5 amended witness: the non-sensitive entry `COLOR=blue` round-trips to
exactly the original key and value. -/
theorem roundtrip_recovers_serialized_value_witness :
    (generateSyncedExample [{ key := "COLOR", value := "blue", line := 1 }] [] {}).content =
      ENVDRIFT_SIGNATURE ++ "\n\n" ++
        ("COLOR" ++ "=" ++ (scrubValueDetailed "COLOR" "blue" {}).scrubbedValue) ++ "\n" ∧
    parseEnvContent ("COLOR" ++ "=" ++ (scrubValueDetailed "COLOR" "blue" {}).scrubbedValue) true =
      [{ key := "COLOR", value := (scrubValueDetailed "COLOR" "blue" {}).scrubbedValue,
         line := 1 }] ∧
    ((scrubValueDetailed "COLOR" "blue" {}).wasScrubbed = false →
      (scrubValueDetailed "COLOR" "blue" {}).scrubbedValue = "blue") := by
  exact roundtrip_recovers_serialized_value "COLOR" "blue" (by decide) (by decide)
    (by decide) (by decide) (by decide)

/-- Code-unit comparison is irreflexive. -/
theorem listLt_irrefl : ∀ l : List Char, listLt l l = false := by
  intro l
  induction l with
  | nil => rfl
  | cons a as ih => simp [listLt, ih]

/-- Code-unit comparison is asymmetric. -/
theorem listLt_asymm : ∀ a b : List Char, listLt a b = true → listLt b a = false := by
  intro a
  induction a with
  | nil =>
    intro b h
    cases b with
    | nil => simp [listLt] at h
    | cons x xs => rfl
  | cons a as ih =>
    intro b h
    cases b with
    | nil => simp [listLt] at h
    | cons b bs =>
      by_cases hab : a.toNat < b.toNat
      · have hba : ¬ b.toNat < a.toNat := by omega
        simp [listLt, hab, hba]
      · by_cases hba : b.toNat < a.toNat
        · simp [listLt, hab, hba] at h
        · have heq : a.toNat = b.toNat := by omega
          simp only [listLt, hab, hba, if_false] at h ⊢
          exact ih bs h

/-- Membership after an ordered insertion. -/
theorem mem_orderedInsert {α : Type} (le : α → α → Bool) (x y : α) :
    ∀ l : List α, y ∈ orderedInsert le x l ↔ y = x ∨ y ∈ l := by
  intro l
  induction l with
  | nil => simp [orderedInsert]
  | cons z zs ih =>
    by_cases h : le z x <;> simp [orderedInsert, h, ih] <;> tauto

/-- An ordered insertion is never empty. -/
theorem orderedInsert_ne_nil {α : Type} (le : α → α → Bool) (x : α) :
    ∀ l : List α, orderedInsert le x l ≠ [] := by
  intro l
  cases l with
  | nil => simp [orderedInsert]
  | cons z zs =>
    by_cases h : le z x <;> simp [orderedInsert, h]

/-- Prepending preserves a known last element. -/
theorem getLast?_cons_of_some {α : Type} (z : α) {t : List α} {M : α}
    (h : t.getLast? = some M) : (z :: t).getLast? = some M := by
  cases t with
  | nil => simp at h
  | cons b bs => rw [List.getLast?_cons_cons]; exact h

/-- Inserting the maximum of a list puts it last. -/
theorem orderedInsert_max_last (M : String) :
    ∀ l : List String, (∀ x ∈ l, x = M ∨ strLtCU x M = true) →
      (orderedInsert strLeCU M l).getLast? = some M := by
  intro l
  induction l with
  | nil => intro _; rfl
  | cons z zs ih =>
    intro h
    have hle : strLeCU z M = true := by
      rcases h z (by simp) with rfl | hlt
      · simp [strLeCU, strLtCU, listLt_irrefl]
      · simp only [strLeCU, strLtCU] at hlt ⊢
        simp [listLt_asymm _ _ hlt]
    simp only [orderedInsert, hle, if_true]
    exact getLast?_cons_of_some z (ih (fun x hx => h x (by simp [hx])))

/-- Inserting a strictly smaller element keeps the maximum last. -/
theorem orderedInsert_lt_keeps_last (M y : String) (hy : strLtCU y M = true) :
    ∀ l : List String, M ∈ l → (∀ x ∈ l, x = M ∨ strLtCU x M = true) →
      l.getLast? = some M →
      (orderedInsert strLeCU y l).getLast? = some M := by
  intro l
  induction l with
  | nil => intro h; simp at h
  | cons z zs ih =>
    intro hM hall hlast
    by_cases hle : strLeCU z y = true
    · by_cases hMz : M ∈ zs
      · have hzs : zs ≠ [] := List.ne_nil_of_mem hMz
        have hzlast : zs.getLast? = some M := by
          cases zs with
          | nil => exact absurd rfl hzs
          | cons b bs => rw [List.getLast?_cons_cons] at hlast; exact hlast
        simp only [orderedInsert, hle, if_true]
        exact getLast?_cons_of_some z
          (ih hMz (fun x hx => hall x (by simp [hx])) hzlast)
      · have hzM : z = M := by
          rcases List.mem_cons.mp hM with h | h
          · exact h.symm
          · exact absurd h hMz
        subst hzM
        have hzy : strLeCU z y = false := by
          simp only [strLeCU, strLtCU] at hy ⊢
          simp [hy]
        rw [hzy] at hle
        simp at hle
    · have hle' : strLeCU z y = false := by
        cases h : strLeCU z y
        · rfl
        · exact absurd h hle
      simp only [orderedInsert, hle', Bool.false_eq_true, if_false]
      exact getLast?_cons_of_some y hlast

/-- Membership in the insertion-sort fold. -/
theorem mem_sortFold {α : Type} (le : α → α → Bool) :
    ∀ (l acc : List α) (x : α),
      x ∈ l.foldl (fun a y => orderedInsert le y a) acc ↔ x ∈ acc ∨ x ∈ l := by
  intro l
  induction l with
  | nil => intro acc x; simp
  | cons y l' ih =>
    intro acc x
    simp only [List.foldl_cons]
    rw [ih (orderedInsert le y acc) x, mem_orderedInsert]
    simp
    tauto

/-- The insertion-sort fold puts the maximum last. -/
theorem sortFold_max_last (M : String) :
    ∀ (l acc : List String),
      (∀ x ∈ l, x = M ∨ strLtCU x M = true) →
      (∀ x ∈ acc, x = M ∨ strLtCU x M = true) →
      (M ∈ acc → acc.getLast? = some M) →
      (M ∈ acc ∨ M ∈ l) →
      (l.foldl (fun a y => orderedInsert strLeCU y a) acc).getLast? = some M := by
  intro l
  induction l with
  | nil =>
    intro acc _ _ hlast hdisj
    rcases hdisj with h | h
    · exact hlast h
    · simp at h
  | cons y l' ih =>
    intro acc hl hacc hlast hdisj
    simp only [List.foldl_cons]
    apply ih (orderedInsert strLeCU y acc)
      (fun x hx => hl x (by simp [hx]))
    · intro x hx
      rcases (mem_orderedInsert strLeCU y x acc).mp hx with rfl | hx'
      · exact hl x (by simp)
      · exact hacc x hx'
    · intro hM
      rcases hl y (by simp) with rfl | hylt
      · exact orderedInsert_max_last y acc hacc
      · rcases (mem_orderedInsert strLeCU y M acc).mp hM with rfl | hM'
        · rw [strLtCU, listLt_irrefl] at hylt
          simp at hylt
        · exact orderedInsert_lt_keeps_last M y hylt acc hM' hacc (hlast hM')
    · rcases hdisj with h | h
      · exact Or.inl ((mem_orderedInsert strLeCU y M acc).mpr (Or.inr h))
      · rcases List.mem_cons.mp h with rfl | h'
        · exact Or.inl ((mem_orderedInsert strLeCU M M acc).mpr (Or.inl rfl))
        · exact Or.inr h'

/-- Every bucket name is either the catch-all `_OTHER` or a non-empty
all-uppercase run. -/
theorem keyPrefix_cases (key : String) :
    keyPrefix key = "_OTHER" ∨
      ((keyPrefix key).data ≠ [] ∧
        ∀ c ∈ (keyPrefix key).data, 'A' ≤ c ∧ c ≤ 'Z') := by
  simp only [keyPrefix]
  split
  case isTrue h =>
    right
    simp only [Bool.and_eq_true, decide_eq_true_eq] at h
    constructor
    · show key.data.takeWhile _ ≠ []
      have := h.1
      intro hnil
      rw [hnil] at this
      simp at this
    · intro c hc
      have := List.mem_takeWhile_imp hc
      simpa using this
  case isFalse h =>
    left
    rfl

/-- A non-empty all-uppercase bucket name sorts strictly before `_OTHER`
in code-unit order. -/
theorem upper_lt_other (p : String) (hne : p.data ≠ [])
    (hch : ∀ c ∈ p.data, 'A' ≤ c ∧ c ≤ 'Z') :
    strLtCU p "_OTHER" = true := by
  unfold strLtCU
  cases hd : p.data with
  | nil => exact absurd hd hne
  | cons c rest =>
    have hc := hch c (by rw [hd]; simp)
    have hlt : c.toNat < Char.toNat '_' := by
      show c.toNat < 95
      have h1 : c.val ≤ ('Z').val := Char.le_def.mp hc.2
      have h2 := UInt32.le_def.mp h1
      simp only [BitVec.le_def] at h2
      have h3 : c.toNat ≤ 90 := by simpa [Char.toNat] using h2
      omega
    show listLt (c :: rest) "_OTHER".data = true
    simp [listLt]
    exact Or.inl hlt

/-- Bucket names after one insertion. -/
theorem keys_insertGroup (q : String) (e : SyncedEntry) :
    ∀ (gs : List (String × List SyncedEntry)) (p : String),
      p ∈ (insertGroup gs q e).map Prod.fst ↔ p ∈ gs.map Prod.fst ∨ p = q := by
  intro gs
  induction gs with
  | nil => intro p; simp [insertGroup]
  | cons g rest ih =>
    intro p
    obtain ⟨gq, ges⟩ := g
    by_cases hgq : (gq == q) = true
    · have hq : gq = q := by simpa using hgq
      subst hq
      simp only [insertGroup, beq_self_eq_true, if_true, List.map_cons, List.mem_cons]
      tauto
    · simp only [insertGroup, hgq, Bool.false_eq_true, if_false, List.map_cons,
        List.mem_cons, ih]
      tauto

/-- Bucket names of the grouped map are exactly the prefixes of the
entries. -/
theorem groups_keys_iff (l : List SyncedEntry) :
    ∀ (gs : List (String × List SyncedEntry)) (p : String),
      p ∈ (l.foldl (fun g e => insertGroup g (keyPrefix e.key) e) gs).map Prod.fst ↔
        p ∈ gs.map Prod.fst ∨ ∃ e ∈ l, p = keyPrefix e.key := by
  induction l with
  | nil => intro gs p; simp
  | cons e l' ih =>
    intro gs p
    simp only [List.foldl_cons]
    rw [ih (insertGroup gs (keyPrefix e.key) e) p, keys_insertGroup]
    simp only [List.mem_cons]
    constructor
    · rintro ((h | h) | ⟨x, hx, rfl⟩)
      · exact Or.inl h
      · exact Or.inr ⟨e, Or.inl rfl, h⟩
      · exact Or.inr ⟨x, Or.inr hx, rfl⟩
    · rintro (h | ⟨x, hx | hx, rfl⟩)
      · exact Or.inl (Or.inl h)
      · subst hx; exact Or.inl (Or.inr rfl)
      · exact Or.inr ⟨x, hx, rfl⟩

/-- Processing keeps the working entry's key. -/
theorem processEntry_key (envEntries : List EnvEntry) (options : SyncOptions)
    (entry : EnvEntry) :
    (processEntry envEntries options entry).key = entry.key := by
  obtain ⟨hk, _, _, _⟩ := processEntry_scrub_fields envEntries options entry
  rw [hk]
  exact (scrubValueDetailed_fields entry.key _ _).1

/-- Grouped generation emits the bucket entry lists in sorted prefix
order. -/
theorem generateSyncedExample_entries_grouped
    (envEntries existingExampleEntries : List EnvEntry) (options : SyncOptions)
    (hg : options.groupByPrefix = true) :
    (generateSyncedExample envEntries existingExampleEntries options).entries =
      ((sortedPrefixesOf ((workingEntries envEntries existingExampleEntries options).map
          (processEntry envEntries options))).map
        (lookupGroup (groupEntriesByPrefix
          ((workingEntries envEntries existingExampleEntries options).map
            (processEntry envEntries options))))).flatten := by
  simp only [generateSyncedExample, hg, if_true, groupedOutput]

/-- C10: with grouping on and the working list containing both a key with
an uppercase prefix and one without, the generator emits the bucket lists
in sorted prefix order, the internal name `_OTHER` of the catch-all
`# Other` bucket is the last of the sorted prefixes, and every other
bucket name sorts strictly before `_OTHER` in code-unit order. -/
theorem other_bucket_sorts_last :
    ∀ (envEntries existingExampleEntries : List EnvEntry) (options : SyncOptions),
      options.groupByPrefix = true →
      (∃ e ∈ workingEntries envEntries existingExampleEntries options,
        keyPrefix e.key ≠ "_OTHER") →
      (∃ e ∈ workingEntries envEntries existingExampleEntries options,
        keyPrefix e.key = "_OTHER") →
      (generateSyncedExample envEntries existingExampleEntries options).entries =
        ((sortedPrefixesOf ((workingEntries envEntries existingExampleEntries options).map
            (processEntry envEntries options))).map
          (lookupGroup (groupEntriesByPrefix
            ((workingEntries envEntries existingExampleEntries options).map
              (processEntry envEntries options))))).flatten ∧
      (sortedPrefixesOf ((workingEntries envEntries existingExampleEntries options).map
          (processEntry envEntries options))).getLast? = some "_OTHER" ∧
      (∀ p ∈ sortedPrefixesOf ((workingEntries envEntries existingExampleEntries options).map
          (processEntry envEntries options)),
        p ≠ "_OTHER" → strLtCU p "_OTHER" = true) := by
  intro envEntries existingExampleEntries options hg _hsome hother
  have hkeys : ∀ p, p ∈ (groupEntriesByPrefix
      ((workingEntries envEntries existingExampleEntries options).map
        (processEntry envEntries options))).map Prod.fst ↔
      ∃ e ∈ (workingEntries envEntries existingExampleEntries options).map
        (processEntry envEntries options), p = keyPrefix e.key := by
    intro p
    unfold groupEntriesByPrefix
    rw [groups_keys_iff _ [] p]
    simp
  have hprop : ∀ p ∈ (groupEntriesByPrefix
      ((workingEntries envEntries existingExampleEntries options).map
        (processEntry envEntries options))).map Prod.fst,
      p = "_OTHER" ∨ strLtCU p "_OTHER" = true := by
    intro p hp
    obtain ⟨e, _, rfl⟩ := (hkeys p).mp hp
    rcases keyPrefix_cases e.key with h | ⟨hne, hch⟩
    · exact Or.inl h
    · exact Or.inr (upper_lt_other _ hne hch)
  have hmem : "_OTHER" ∈ (groupEntriesByPrefix
      ((workingEntries envEntries existingExampleEntries options).map
        (processEntry envEntries options))).map Prod.fst := by
    obtain ⟨e, he, hkp⟩ := hother
    refine (hkeys "_OTHER").mpr ⟨processEntry envEntries options e, ?_, ?_⟩
    · exact List.mem_map.mpr ⟨e, he, rfl⟩
    · rw [processEntry_key]
      exact hkp.symm
  refine ⟨generateSyncedExample_entries_grouped envEntries existingExampleEntries options hg,
    ?_, ?_⟩
  · unfold sortedPrefixesOf sortByLe
    exact sortFold_max_last "_OTHER" _ [] hprop
      (by intro x hx; simp at hx) (by intro h; simp at h) (Or.inr hmem)
  · intro p hp hne
    have hp' : p ∈ (groupEntriesByPrefix
        ((workingEntries envEntries existingExampleEntries options).map
          (processEntry envEntries options))).map Prod.fst := by
      unfold sortedPrefixesOf sortByLe at hp
      rcases (mem_sortFold strLeCU _ [] p).mp hp with h | h
      · simp at h
      · exact h
    rcases hprop p hp' with h | h
    · exact absurd h hne
    · exact h

/-- C10 witness: keys `AWS_KEY` (bucket `AWS`) and `foo` (bucket `_OTHER`)
put `_OTHER` last among the sorted prefixes. -/
theorem other_bucket_sorts_last_witness :
    (sortedPrefixesOf ((workingEntries
        [{ key := "AWS_KEY", value := "1", line := 1 },
         { key := "foo", value := "2", line := 2 }] []
        { groupByPrefix := true }).map
      (processEntry
        [{ key := "AWS_KEY", value := "1", line := 1 },
         { key := "foo", value := "2", line := 2 }]
        { groupByPrefix := true }))).getLast? = some "_OTHER" := by
  exact (other_bucket_sorts_last
    [{ key := "AWS_KEY", value := "1", line := 1 },
     { key := "foo", value := "2", line := 2 }] []
    { groupByPrefix := true } rfl (by decide) (by decide)).2.1

end EnvDrift
